import Mathlib

/-!
Verification of the retrieval-format-bench execution engine.

The definitions below are shallow embeddings of the repository's
TypeScript sources:
* `src/types.ts` — the data model (ModelSpec, Task, ScorerSpec, …);
* `src/scoring.ts` — `normStr`, `toNumber`, `getJsonPath`, `scoreOutput`;
* `src/openrouter.ts` — `OpenRouterClient.#fetchJsonWithRetry`;
* `src/runner.ts` — `runBenchmark` (work construction, the worker loop,
  checkpointing, abort handling, finalization).

JavaScript-runtime primitives that are not code of the repository
(`JSON.parse`, `RegExp` matching, `Number(...)` parsing, the wall clock,
network completions) are abstracted as explicit oracle parameters.
JavaScript strings are modelled as `String`; the string methods the
sources use (`trim`, `toLowerCase`, `split`, `slice`, `startsWith`,
`includes`) are implemented below over the character list so that all
terms reduce inside the kernel.
-/

namespace Bench

/-! ### JavaScript string primitives -/

/-- `String.prototype.trim`: strip whitespace from both ends. -/
def jsTrim (s : String) : String :=
  String.mk (((s.toList.dropWhile Char.isWhitespace).reverse.dropWhile
    Char.isWhitespace).reverse)

/-- `String.prototype.toLowerCase` (ASCII case folding). -/
def jsLower (s : String) : String :=
  String.mk (s.toList.map Char.toLower)

/-- `String.prototype.length` (code units). -/
def jsLength (s : String) : Nat :=
  s.toList.length

/-- `String.prototype.slice(0, n)`. -/
def jsTake (s : String) (n : Nat) : String :=
  String.mk (s.toList.take n)

/-- `String.prototype.slice(n)`. -/
def jsDrop (s : String) (n : Nat) : String :=
  String.mk (s.toList.drop n)

/-- List prefix test for `String.prototype.startsWith`. -/
def listPrefixOf : List Char → List Char → Bool
  | [], _ => true
  | _ :: _, [] => false
  | c :: cs, d :: ds => c == d && listPrefixOf cs ds

/-- `String.prototype.startsWith(p)`. -/
def jsStartsWith (s p : String) : Bool :=
  listPrefixOf p.toList s.toList

/-- List infix test for `String.prototype.includes`. -/
def listInfixOf (p : List Char) : List Char → Bool
  | [] => listPrefixOf p []
  | c :: cs => listPrefixOf p (c :: cs) || listInfixOf p cs

/-- `String.prototype.includes(sub)`. -/
def jsIncludes (s sub : String) : Bool :=
  listInfixOf sub.toList s.toList

/-- `String.prototype.split(c)` for a single-character separator. -/
def splitCharList (c : Char) : List Char → List (List Char)
  | [] => [[]]
  | d :: ds =>
    let r := splitCharList c ds
    if d = c then [] :: r
    else
      match r with
      | h :: t => (d :: h) :: t
      | [] => [[d]]

/-- `String.prototype.split(".")` (the only split the scorer performs). -/
def jsSplitOn (s : String) (c : Char) : List String :=
  (splitCharList c s.toList).map String.mk

/-! ### JSON values (the JavaScript runtime's value universe) -/

/-- JSON values, as produced by the JavaScript runtime's `JSON.parse`.
Numeric literals are modelled as integers; the scoring logic under study
treats numbers opaquely (equality and serialization only). -/
inductive Json where
  | jnull : Json
  | jbool : Bool → Json
  | jnum : Int → Json
  | jstr : String → Json
  | jarr : List Json → Json
  | jobj : List (String × Json) → Json

/-- A JavaScript value in scoring positions: `none` is `undefined`,
`some v` is a JSON-representable value. -/
abbrev JsValue := Option Json

/-- JSON string escaping as performed by `JSON.stringify` (quotes,
backslashes and newlines; other characters pass through). -/
def jsonEscape (s : String) : String :=
  String.mk (s.toList.foldr
    (fun c acc =>
      (if c = '"' then ['\\', '"']
       else if c = '\\' then ['\\', '\\']
       else if c = '\n' then ['\\', 'n']
       else [c]) ++ acc) [])

mutual

/-- `JSON.stringify` on parsed JSON values (compact form, no spacing). -/
def jsonStringify : Json → String
  | .jnull => "null"
  | .jbool b => if b then "true" else "false"
  | .jnum n => toString n
  | .jstr s => "\"" ++ jsonEscape s ++ "\""
  | .jarr xs => "[" ++ jsonStringifyArr xs ++ "]"
  | .jobj kvs => "\x7b" ++ jsonStringifyObj kvs ++ "\x7d"

/-- Comma-separated serialization of a JSON array's elements. -/
def jsonStringifyArr : List Json → String
  | [] => ""
  | x :: [] => jsonStringify x
  | x :: xs => jsonStringify x ++ "," ++ jsonStringifyArr xs

/-- Comma-separated serialization of a JSON object's key/value pairs. -/
def jsonStringifyObj : List (String × Json) → String
  | [] => ""
  | (k, v) :: [] => "\"" ++ jsonEscape k ++ "\":" ++ jsonStringify v
  | (k, v) :: xs =>
      "\"" ++ jsonEscape k ++ "\":" ++ jsonStringify v ++ "," ++ jsonStringifyObj xs

end

/-- `JSON.stringify` on a possibly-`undefined` value:
`JSON.stringify(undefined)` is `undefined`. -/
def jsonStringifyV : JsValue → Option String :=
  Option.map jsonStringify

/-- `Object.is` on scoring values. Arrays and objects compare by heap
reference in JavaScript; the extracted value and the configured
expectation always come from distinct parses, so they are never the
same reference. Primitives compare by value. -/
def jsObjectIs : JsValue → JsValue → Bool
  | none, none => true
  | some .jnull, some .jnull => true
  | some (.jbool a), some (.jbool b) => a == b
  | some (.jnum a), some (.jnum b) => a == b
  | some (.jstr a), some (.jstr b) => a == b
  | _, _ => false

mutual

/-- JavaScript `String(...)` coercion on a JSON value
(`Array.prototype.toString` joins elements with commas, rendering `null`
elements as empty; plain objects render as `[object Object]`). -/
def jsToString : Json → String
  | .jnull => "null"
  | .jbool b => if b then "true" else "false"
  | .jnum n => toString n
  | .jstr s => s
  | .jarr xs => jsToStringArr xs
  | .jobj _ => "[object Object]"

/-- `Array.prototype.join(",")` over a JSON array's elements. -/
def jsToStringArr : List Json → String
  | [] => ""
  | .jnull :: [] => ""
  | x :: [] => jsToString x
  | .jnull :: xs => "," ++ jsToStringArr xs
  | x :: xs => jsToString x ++ "," ++ jsToStringArr xs

end

/-- `String(expected ?? "")` from `scoring.ts`: `undefined` and `null`
collapse to the empty string before coercion. -/
def jsToStringOrEmpty : JsValue → String
  | none => ""
  | some .jnull => ""
  | some v => jsToString v

/-! ### Data model (`src/types.ts`) -/

/-- Chat roles (`types.ts`, `Role`). -/
inductive Role where
  | system | user | assistant | tool | developer
deriving DecidableEq

/-- `types.ts`, `ChatMessage`. -/
structure ChatMessage where
  role : Role
  content : String

/-- `types.ts`, `ModelSpec`. -/
structure ModelSpec where
  id : String
  label : Option String := none

/-- `types.ts`, `ScorerSpec` (a tagged union). Optional boolean fields
are `Option Bool`; the sources read them with JavaScript truthiness. -/
inductive ScorerSpec where
  | exact (trim caseInsensitive : Option Bool)
  | contains (substring : String) (caseInsensitive : Option Bool)
  | regex (pattern : String) (flags : Option String)
  | number (tolerance : Option Rat)
  | jsonPath (path : String) (expected : JsValue) (strict : Option Bool)

/-- `types.ts`, `Task`. The unused `meta` record is omitted; no embedded
component reads it. -/
structure Task where
  id : String
  prompt : Option String := none
  messages : Option (List ChatMessage) := none
  expected : JsValue := none
  scorer : Option ScorerSpec := none
  tags : Option (List String) := none

/-- `types.ts`, `ScoreResult`. `scoreOutput` always supplies `details`. -/
structure ScoreResult where
  correct : Bool
  details : String

/-! ### Scoring (`src/scoring.ts`) -/

/-- JavaScript-runtime primitives used by the scorer, abstracted:
`regexTest pattern flags text` models `new RegExp(pattern, flags).test(text)`;
`jsonParse` models `JSON.parse` (`none` = parse failure / thrown
SyntaxError); `parseNumber` models finite `Number(...)` conversion of a
trimmed non-empty string (`none` = NaN or infinite). -/
structure JsPrims where
  regexTest : String → Option String → String → Bool
  jsonParse : String → Option Json
  parseNumber : String → Option Rat

/-- `scoring.ts`, `normStr`: optionally trim, then optionally case-fold. -/
def normStr (s : String) (trim caseInsensitive : Option Bool) : String :=
  let out := s
  let out := if trim.getD false then jsTrim out else out
  let out := if caseInsensitive.getD false then jsLower out else out
  out

/-- `scoring.ts`, `toNumber`: numbers pass through; non-empty strings go
through `Number(...)` (finite results only); everything else is `null`. -/
def toNumber (parseNumber : String → Option Rat) : JsValue → Option Rat
  | some (.jnum n) => some (n : Rat)
  | some (.jstr s) => if jsTrim s = "" then none else parseNumber (jsTrim s)
  | _ => none

/-- Characters admitted by the segment pattern `[A-Za-z0-9_\-]`. -/
def isSegChar (c : Char) : Bool :=
  c.isAlpha || c.isDigit || c = '_' || c = '-'

/-- Digit list to number, as `Number("<digits>")` evaluates it. -/
def digitsToNat (ds : List Char) : Nat :=
  ds.foldl (fun n c => n * 10 + (c.toNat - 48)) 0

/-- The segment regex `^([A-Za-z0-9_\-]+)(\[(\d+)\])?$` from
`getJsonPath`: returns the key and the optional bracketed index. -/
def matchSegment (s : String) : Option (String × Option Nat) :=
  let cs := s.toList
  let key := cs.takeWhile isSegChar
  let rest := cs.dropWhile isSegChar
  if key.isEmpty then none
  else
    match rest with
    | [] => some (String.mk key, none)
    | '[' :: tail =>
      let ds := tail.takeWhile Char.isDigit
      let rest2 := tail.dropWhile Char.isDigit
      if ds.isEmpty then none
      else
        match rest2 with
        | ']' :: [] => some (String.mk key, some (digitsToNat ds))
        | _ => none
    | _ => none

/-- Canonical array-index property names: `"0"`, or digits with no
leading zero. -/
def isCanonicalIndex : List Char → Bool
  | [] => false
  | '0' :: rest => rest.isEmpty
  | cs => cs.all Char.isDigit

/-- The JavaScript member access `cur?.[key]`: `undefined`/`null` short
circuit to `undefined`; objects look the key up; arrays and strings
answer canonical numeric indices and `length`; other primitives have no
own properties. (Built-in method properties such as `map` yield function
objects in JavaScript; they are not JSON-representable and are modelled
as `undefined`.) Canonical array-index property names are `"0"` or a
digit string without a leading zero, per `isCanonicalIndex`. -/
def jsGetProp : JsValue → String → JsValue
  | none, _ => none
  | some .jnull, _ => none
  | some (.jobj kvs), key => (kvs.find? (fun kv => kv.1 == key)).map (·.2)
  | some (.jarr xs), key =>
      if key = "length" then some (.jnum xs.length)
      else if isCanonicalIndex key.toList then xs.get? (digitsToNat key.toList)
      else none
  | some (.jstr s), key =>
      if key = "length" then some (.jnum (jsLength s))
      else if isCanonicalIndex key.toList then
        (s.toList.get? (digitsToNat key.toList)).map (fun c => .jstr (String.mk [c]))
      else none
  | some (.jbool _), _ => none
  | some (.jnum _), _ => none

/-- The loop body of `getJsonPath`, walking the dot-separated segments. -/
def getJsonPathGo : List String → JsValue → Except String JsValue
  | [], cur => .ok cur
  | part :: rest, cur =>
    match matchSegment part with
    | none => .error ("Unsupported jsonPath segment: " ++ part)
    | some (key, oidx) =>
      let cur1 := jsGetProp cur key
      let cur2 :=
        match oidx with
        | none => cur1
        | some idx =>
          match cur1 with
          | some (.jarr xs) => xs.get? idx
          | _ => none
      getJsonPathGo rest cur2

/-- `scoring.ts`, `getJsonPath`: a small JSONPath subset
(`$.` root, dot-separated keys, optional single `[<int>]` per segment).
Errors model the `throw`s the TypeScript performs. -/
def getJsonPath (obj : JsValue) (path : String) : Except String JsValue :=
  let p := jsTrim path
  if jsStartsWith p "$." then
    getJsonPathGo (jsSplitOn (jsDrop p 2) '.') obj
  else
    .error ("jsonPath must start with \"$.\": " ++ path)

/-- `scoring.ts`, `scoreOutput`: polymorphic scorer dispatch. -/
def scoreOutput (prims : JsPrims) (outputText : String) (expected : JsValue)
    (scorer : Option ScorerSpec) : ScoreResult :=
  match scorer with
  | none =>
    -- Default: exact string match after trimming.
    let ok := normStr outputText (some true) (some false) ==
      normStr (jsToStringOrEmpty expected) (some true) (some false)
    ⟨ok, if ok then "exact" else "mismatch"⟩
  | some (.exact t ci) =>
    let got := normStr outputText t ci
    let exp := normStr (jsToStringOrEmpty expected) t ci
    let ok := got == exp
    ⟨ok, if ok then "exact" else "expected \"" ++ exp ++ "\", got \"" ++ got ++ "\""⟩
  | some (.contains sub ci) =>
    let got := if ci.getD false then jsLower outputText else outputText
    let sb := if ci.getD false then jsLower sub else sub
    let ok := jsIncludes got sb
    ⟨ok, if ok then "contains" else "missing substring \"" ++ sub ++ "\""⟩
  | some (.regex pat flags) =>
    let ok := prims.regexTest pat flags outputText
    ⟨ok, if ok then "regex" else "no match for /" ++ pat ++ "/" ++ flags.getD ""⟩
  | some (.number tol0) =>
    let tol := tol0.getD 0
    match toNumber prims.parseNumber (some (.jstr outputText)),
        toNumber prims.parseNumber expected with
    | some got, some exp =>
      let ok := decide (|got - exp| ≤ tol)
      ⟨ok, if ok then "number"
           else "expected " ++ toString exp ++ "±" ++ toString tol ++
             ", got " ++ toString got⟩
    | _, _ => ⟨false, "not a number"⟩
  | some (.jsonPath path sexp strict) =>
    match prims.jsonParse outputText with
    | none => ⟨false, "invalid JSON"⟩
    | some parsed =>
      match getJsonPath (some parsed) path with
      | .error e => ⟨false, "jsonPath error: " ++ e⟩
      | .ok got =>
        let ok :=
          if strict.getD false then jsObjectIs got sexp
          else jsonStringifyV got == jsonStringifyV sexp
        ⟨ok, if ok then "jsonPath"
             else "expected " ++ (jsonStringifyV sexp).getD "undefined" ++
               ", got " ++ (jsonStringifyV got).getD "undefined"⟩

/-! ### Remote client retry loop (`src/openrouter.ts`) -/

/-- What one `fetch` of the chat-completion endpoint settles to:
a 2xx response with a JSON body, a non-2xx response with a status and a
body text, or a transport/timeout failure (rejected promise). -/
inductive FetchOutcome where
  | success (body : Json)
  | httpError (status : Nat) (text : String)
  | networkError (message : String)

/-- One iteration outcome bookkeeping for `#fetchJsonWithRetry`:
`fetchSeq n` is what the `(n+1)`-th issued request settles to. The
result pairs the number of requests actually issued with the returned
body or the thrown error's message.

Faithful to the TypeScript control flow: the `while (attempt <=
maxRetries)` loop runs at most `maxRetries + 1` iterations; a retryable
status (429/502/503/504) records `lastErr` and continues; any *other*
non-2xx status throws inside the `try` block — which the function's own
`catch` intercepts exactly like a network error, retrying while
`attempt <= maxRetries` still holds. Leaving the loop throws the last
recorded error. -/
def fetchRetryGo (fetchSeq : Nat → FetchOutcome) :
    Nat → Nat → Option String → Nat × Except String Json
  | 0, issued, lastErr =>
      (issued, .error (lastErr.getD "OpenRouter request failed (unknown error)"))
  | remaining + 1, issued, _lastErr =>
      match fetchSeq issued with
      | .success body => (issued + 1, .ok body)
      | .httpError status text =>
          let msg :=
            if status = 429 || status = 502 || status = 503 || status = 504 then
              "HTTP " ++ toString status ++ ": " ++ text
            else
              "OpenRouter request failed (" ++ toString status ++ "): " ++ text
          fetchRetryGo fetchSeq remaining (issued + 1) (some msg)
      | .networkError msg =>
          fetchRetryGo fetchSeq remaining (issued + 1) (some msg)

/-- `openrouter.ts`, `#fetchJsonWithRetry` (with `lastErr` initially
null and `attempt` initially 0). -/
def fetchJsonWithRetry (maxRetries : Nat) (fetchSeq : Nat → FetchOutcome) :
    Nat × Except String Json :=
  fetchRetryGo fetchSeq (maxRetries + 1) 0 none

/-! ### Runner data model (`src/runner.ts`, `src/types.ts`) -/

/-- `types.ts`, `OpenRouterUsage` (the token fields; the runner only
copies the record through). -/
structure OpenRouterUsage where
  prompt_tokens : Option Nat := none
  completion_tokens : Option Nat := none
  total_tokens : Option Nat := none

/-- `types.ts`, `OpenRouterChoice`, narrowed to what the runner reads.
`finish_reason` conflates `undefined` and `null`; the runner only reads
it through `?? null`. -/
structure ORChoice where
  content : String
  finish_reason : Option String := none

/-- `types.ts`, `OpenRouterChatCompletionResponse`, narrowed to what
the runner reads. -/
structure ORResponse where
  choices : List ORChoice
  usage : Option OpenRouterUsage := none

/-- `types.ts`, `AttemptResult`. `finishReason` distinguishes an absent
field (`none`) from a present `string | null` field (`some _`). -/
structure AttemptResult where
  taskId : String
  modelId : String
  modelLabel : Option String
  ok : Bool
  startedAt : String
  endedAt : String
  latencyMs : Int
  responseText : Option String := none
  finishReason : Option (Option String) := none
  usage : Option OpenRouterUsage := none
  expected : JsValue := none
  score : Option ScoreResult := none
  error : Option String := none

/-- The task header recorded in a `RunResult` (`{id, tags}`). -/
structure TaskHeader where
  id : String
  tags : Option (List String)

/-- `types.ts`, `RunResult`. -/
structure RunResult where
  runId : String
  startedAt : String
  endedAt : String
  openrouterBaseUrl : String
  models : List ModelSpec
  temperature : Option Rat
  maxTokens : Option Nat
  includeReasoning : Option Bool
  tasks : List TaskHeader
  attempts : List AttemptResult

/-- `runner.ts`, `WorkItem`. -/
structure WorkItem where
  index : Nat
  model : ModelSpec
  task : Task

/-- `runner.ts`, `truncate`. -/
def truncate (s : String) (maxChars : Nat) : String :=
  if jsLength s ≤ maxChars then s
  else jsTake s maxChars ++ "... (truncated, " ++ toString (jsLength s) ++
    " chars total)"

/-- The model-major cross product (`runner.ts` lines 57–63: outer loop
over models, inner loop over tasks). -/
def crossProduct (models : List ModelSpec) (tasks : List Task) :
    List (ModelSpec × Task) :=
  models.flatMap fun m => tasks.map fun t => (m, t)

/-- The `work` array: the cross product with each item's position as its
`index` (the `idx++` counter). -/
def buildWork (models : List ModelSpec) (tasks : List Task) : List WorkItem :=
  (crossProduct models tasks).enum.map fun p => ⟨p.1, p.2.1, p.2.2⟩

/-- `RunOptions` plus the per-run constants fixed before the workers
start (`runId`, `startedAt`, the client's base URL). -/
structure RunnerConfig where
  models : List ModelSpec
  tasks : List Task
  runId : String
  startedAt : String
  baseUrl : String
  temperature : Option Rat := none
  maxTokens : Option Nat := none
  includeReasoning : Option Bool := none
  storeFullText : Option Bool := none
  maxChars : Option Nat := none
  checkpointEvery : Option Nat := none
  concurrency : Nat

def workList (cfg : RunnerConfig) : List WorkItem :=
  buildWork cfg.models cfg.tasks

/-- `planned = work.length`. -/
def planned (cfg : RunnerConfig) : Nat :=
  (workList cfg).length

/-- `Math.max(1, options.checkpointEvery ?? 5)`. -/
def checkpointEveryEff (cfg : RunnerConfig) : Nat :=
  max 1 (cfg.checkpointEvery.getD 5)

/-- `Math.max(1, Math.min(options.concurrency, planned || 1))`. -/
def workerCount (cfg : RunnerConfig) : Nat :=
  max 1 (min cfg.concurrency (if planned cfg = 0 then 1 else planned cfg))

/-- `options.maxChars ?? 4000`. -/
def maxCharsEff (cfg : RunnerConfig) : Nat :=
  cfg.maxChars.getD 4000

/-- `options.storeFullText ?? false`. -/
def storeFullTextEff (cfg : RunnerConfig) : Bool :=
  cfg.storeFullText.getD false

/-! ### The run environment (oracles for I/O and the clock) -/

/-- What one `client.chatCompletion` call settles to. -/
inductive CallOutcome where
  | success (resp : ORResponse)
  | failure (message : String)

/-- The environment of one work item: its call outcome and the wall
clock readings its worker observes. -/
structure ItemEnv where
  outcome : CallOutcome
  startedAt : String
  endedAt : String
  latencyMs : Int

/-- The whole run's environment: per-item call results and clocks, the
clock reading of the n-th executed checkpoint build, whether the n-th
checkpoint write fails (with the error's rendering), the final clock
reading, and the scorer's runtime primitives. -/
structure RunEnv where
  item : Nat → ItemEnv
  snapEndedAt : Nat → String
  writeFails : Nat → Option String
  finalEndedAt : String
  prims : JsPrims

/-- The message construction at the head of the worker body:
`w.task.messages ?? (w.task.prompt ? [user message] : throw ...)`.
A JavaScript empty-string prompt is falsy, so it also raises the
construction error. -/
def constructMessages (t : Task) : Except String (List ChatMessage) :=
  match t.messages with
  | some ms => .ok ms
  | none =>
    match t.prompt with
    | some p =>
      if p = "" then .error ("Task " ++ t.id ++ " must have either messages or prompt")
      else .ok [⟨.user, p⟩]
    | none => .error ("Task " ++ t.id ++ " must have either messages or prompt")

/-- The `AttemptResult` the worker records for work item `w`: the
success literal from the `try` block, or the failure literal from the
`catch` block (construction error or rejected call). -/
def attemptFor (cfg : RunnerConfig) (env : RunEnv) (w : WorkItem) : AttemptResult :=
  let e := env.item w.index
  let fail := fun (msg : String) =>
    { taskId := w.task.id, modelId := w.model.id, modelLabel := w.model.label,
      ok := false, startedAt := e.startedAt, endedAt := e.endedAt,
      latencyMs := e.latencyMs, error := some msg, expected := w.task.expected
      : AttemptResult }
  match constructMessages w.task with
  | .error msg => fail msg
  | .ok _ =>
    match e.outcome with
    | .failure msg => fail msg
    | .success resp =>
      let content := ((resp.choices.head?).map (·.content)).getD ""
      { taskId := w.task.id, modelId := w.model.id, modelLabel := w.model.label,
        ok := true, startedAt := e.startedAt, endedAt := e.endedAt,
        latencyMs := e.latencyMs,
        responseText := some (if storeFullTextEff cfg then content
          else truncate content (maxCharsEff cfg)),
        finishReason := some ((resp.choices.head?).bind (·.finish_reason)),
        usage := resp.usage,
        expected := w.task.expected,
        score := some (scoreOutput env.prims content w.task.expected w.task.scorer) }

/-- The attempt recorded at slot `i` (`none` when `i` is out of range). -/
def attemptAt (cfg : RunnerConfig) (env : RunEnv) (i : Nat) : Option AttemptResult :=
  (workList cfg)[i]?.map (attemptFor cfg env)

/-- `runner.ts`, `buildRunSnapshot`: the full record with the
finished-so-far attempts (`attemptsByIndex.filter(Boolean)`). -/
def buildRunSnapshot (cfg : RunnerConfig) (endedAt : String)
    (slots : List (Option AttemptResult)) : RunResult :=
  { runId := cfg.runId, startedAt := cfg.startedAt, endedAt := endedAt,
    openrouterBaseUrl := cfg.baseUrl, models := cfg.models,
    temperature := cfg.temperature, maxTokens := cfg.maxTokens,
    includeReasoning := cfg.includeReasoning,
    tasks := cfg.tasks.map fun t => ⟨t.id, t.tags⟩,
    attempts := slots.filterMap id }

/-! ### The scheduler as a small-step machine

`runBenchmark` runs `workerCount` cooperative workers over a shared
cursor, plus a serialized checkpoint-write chain and signal handlers.
Suspension happens only at I/O boundaries, so each worker's execution
decomposes into atomic segments: claiming the next index and issuing
the call (synchronous from the loop head to the `await`), and the
continuation after the call settles (recording the attempt, bumping
`done`, possibly enqueuing a checkpoint write). A schedule — the order
in which the event loop resumes those segments, runs queued checkpoint
writes, and delivers signals — is a list of events; the theorems
quantify over all schedules. -/

/-- A worker is at the loop head, awaiting the call for item `i`, or
returned. -/
inductive WorkerState where
  | atLoop
  | inCall (i : Nat)
  | finished
deriving DecidableEq

/-- The mutable state of `runBenchmark` while the workers run. `queue`
holds one entry per enqueued-but-not-yet-executed checkpoint write,
recording `done` at enqueue time (the continuation itself captures
nothing; the marker is bookkeeping for the theorems). `executed` pairs
each executed write's marker with the snapshot it serialized. -/
structure SchedState where
  next : Nat
  aborted : Bool
  done : Nat
  lastCheckpointDone : Nat
  slots : List (Option AttemptResult)
  workers : List WorkerState
  queue : List Nat
  executed : List (Nat × RunResult)
  checkpointError : Option String

/-- Scheduler events: resume worker `w`'s next segment, execute the
checkpoint chain's next queued write, or deliver SIGINT/SIGTERM. -/
inductive Ev where
  | work (w : Nat)
  | chain
  | abort
deriving DecidableEq

/-- The state after lines 57–113 of `runner.ts`: cursor at 0, all slots
empty, all workers at the loop head, the initial checkpoint write
already enqueued. -/
def initState (cfg : RunnerConfig) : SchedState :=
  { next := 0, aborted := false, done := 0, lastCheckpointDone := 0,
    slots := List.replicate (planned cfg) none,
    workers := List.replicate (workerCount cfg) .atLoop,
    queue := [0], executed := [], checkpointError := none }

/-- One segment of worker `wi`. At the loop head: return if aborted,
otherwise claim `next` (incrementing it) and either issue the call or
return when the work is exhausted. After a call settles: record the
attempt at the item's own slot, bump `done`, and enqueue a checkpoint
write when the threshold or 100% is reached. -/
def stepWork (cfg : RunnerConfig) (env : RunEnv) (s : SchedState) (wi : Nat) :
    SchedState :=
  match s.workers[wi]? with
  | none => s
  | some .finished => s
  | some .atLoop =>
    if s.aborted then { s with workers := s.workers.set wi .finished }
    else
      let i := s.next
      if i < planned cfg then
        { s with next := i + 1, workers := s.workers.set wi (.inCall i) }
      else
        { s with next := i + 1, workers := s.workers.set wi .finished }
  | some (.inCall i) =>
    let slots1 := s.slots.set i (attemptAt cfg env i)
    let done1 := s.done + 1
    let s1 := { s with
      slots := slots1
      done := done1
      workers := s.workers.set wi .atLoop }
    if checkpointEveryEff cfg ≤ done1 - s.lastCheckpointDone ∨ done1 = planned cfg
    then { s1 with lastCheckpointDone := done1, queue := s1.queue ++ [done1] }
    else s1

/-- The checkpoint chain executes its next queued write: the snapshot is
built *now* (the `.then` continuation calls `buildRunSnapshot` when the
previous link settles, not at enqueue time) and the write either
succeeds or records its error into `checkpointError`. -/
def stepChain (cfg : RunnerConfig) (env : RunEnv) (s : SchedState) : SchedState :=
  match s.queue with
  | [] => s
  | k :: rest =>
    let snap := buildRunSnapshot cfg (env.snapEndedAt s.executed.length) s.slots
    { s with queue := rest,
             executed := s.executed ++ [(k, snap)],
             checkpointError :=
               match env.writeFails s.executed.length with
               | some msg => some msg
               | none => s.checkpointError }

/-- One scheduler event. -/
def step (cfg : RunnerConfig) (env : RunEnv) (s : SchedState) : Ev → SchedState
  | .work wi => stepWork cfg env s wi
  | .chain => stepChain cfg env s
  | .abort => { s with aborted := true }

/-- Run a schedule from the initial state. -/
def runSched (cfg : RunnerConfig) (env : RunEnv) (evs : List Ev) : SchedState :=
  evs.foldl (step cfg env) (initState cfg)

/-- `await Promise.all(workers)` and `await checkpointChain` have both
resolved: every worker returned and no checkpoint write is pending. -/
def Drained (s : SchedState) : Prop :=
  (∀ w ∈ s.workers, w = WorkerState.finished) ∧ s.queue = []

/-- What `runBenchmark` resolves to. -/
structure RunOutcome where
  run : RunResult
  completed : Bool
  aborted : Bool

/-- `runner.ts` lines 211–244 (after the workers and the checkpoint
chain drain): throw if any checkpoint write failed, otherwise assemble
the final `RunResult` and the `completed`/`aborted` verdict. -/
def finishRun (cfg : RunnerConfig) (env : RunEnv) (s : SchedState) :
    Except String RunOutcome :=
  match s.checkpointError with
  | some e => .error ("Checkpoint write failed: " ++ e)
  | none =>
    .ok { run := buildRunSnapshot cfg env.finalEndedAt s.slots,
          completed := !s.aborted && s.done == planned cfg,
          aborted := s.aborted }

/-- `runBenchmark` under a given schedule. -/
def runBenchmark (cfg : RunnerConfig) (env : RunEnv) (evs : List Ev) :
    Except String RunOutcome :=
  finishRun cfg env (runSched cfg env evs)

/-! ### Finalization file effects (`runner.ts` lines 232–257) -/

/-- The output directory's relevant contents: a map from file name
(relative to `outDir`) to the run record last written there. -/
def OutDir : Type := String → Option RunResult

/-- `Deno.writeTextFile` (truncate/create). -/
def fsWrite (fs : OutDir) (p : String) (r : RunResult) : OutDir :=
  fun q => if q = p then some r else fs q

/-- `Deno.remove`. -/
def fsRemove (fs : OutDir) (p : String) : OutDir :=
  fun q => if q = p then none else fs q

/-- The artifact persistence at the tail of `runBenchmark`: write the
terminal artifact under a suffix chosen by `completed`; only on a
completed run overwrite `latest.json` and (via `shouldDeletePartial` in
the `finally` block) delete the intermediate checkpoint file. Returns
the updated directory and the terminal artifact's name. -/
def persistFinal (runId : String) (run : RunResult) (completed : Bool)
    (fs : OutDir) : OutDir × String :=
  let suffix := if completed then ".json" else ".partial.json"
  let runPath := runId ++ suffix
  let fs1 := fsWrite fs runPath run
  let fs2 := if completed then fsWrite fs1 "latest.json" run else fs1
  let fs3 := if completed then fsRemove fs2 (runId ++ ".partial.json") else fs2
  (fs3, runPath)

/-! ### Auxiliary list lemmas -/

theorem filterMap_id_replicate_none {α : Type} (n : Nat) :
    (List.replicate n (none : Option α)).filterMap id = [] := by
  induction n with
  | zero => rfl
  | succ n ih => simp [List.replicate_succ, ih]

theorem filterMap_id_length_set {α : Type} (l : List (Option α)) (i : Nat) (a : α)
    (h : l[i]? = some none) :
    ((l.set i (some a)).filterMap id).length = (l.filterMap id).length + 1 := by
  induction l generalizing i with
  | nil => simp at h
  | cons hd tl ih =>
    cases i with
    | zero =>
      simp only [List.getElem?_cons_zero, Option.some_inj] at h
      subst h
      simp
    | succ i =>
      simp only [List.getElem?_cons_succ] at h
      cases hd with
      | none => simpa [List.set] using ih i h
      | some b => simpa [List.set] using ih i h

/-! ### The scheduler invariant -/

/-- The state-independent description of an executed checkpoint write:
its snapshot was built by `buildRunSnapshot` over some slot vector whose
entries are empty or the item's own attempt, and it holds at least `k`
attempts when the write was enqueued after `k` completions. -/
def SnapGood (cfg : RunnerConfig) (env : RunEnv) (k : Nat) (snap : RunResult) : Prop :=
  ∃ v : List (Option AttemptResult),
    v.length = planned cfg ∧
    (∀ i a, v[i]? = some a → a = none ∨ a = attemptAt cfg env i) ∧
    (∃ m, snap = buildRunSnapshot cfg (env.snapEndedAt m) v) ∧
    k ≤ (v.filterMap id).length

/-- The inductive invariant of the scheduler machine. -/
structure Inv (cfg : RunnerConfig) (env : RunEnv) (s : SchedState) : Prop where
  slots_len : s.slots.length = planned cfg
  workers_len : s.workers.length = workerCount cfg
  slot_content : ∀ (i : Nat) (a : Option AttemptResult),
    s.slots[i]? = some a → a = none ∨ a = attemptAt cfg env i
  done_count : s.done = (s.slots.filterMap id).length
  filled_lt_next : ∀ (i : Nat) (a : AttemptResult),
    s.slots[i]? = some (some a) → i < s.next
  claimed_covered : ∀ i : Nat, i < planned cfg → i < s.next →
    (∃ a, s.slots[i]? = some (some a)) ∨
      (∃ p : Nat, s.workers[p]? = some (WorkerState.inCall i))
  inCall_ok : ∀ p i : Nat, s.workers[p]? = some (WorkerState.inCall i) →
    i < planned cfg ∧ i < s.next ∧ s.slots[i]? = some none
  inCall_unique : ∀ p q i : Nat, s.workers[p]? = some (WorkerState.inCall i) →
    s.workers[q]? = some (WorkerState.inCall i) → p = q
  finished_next : ∀ p : Nat, s.workers[p]? = some WorkerState.finished →
    s.aborted = true ∨ planned cfg < s.next
  queue_le : ∀ k ∈ s.queue, k ≤ s.done
  executed_good : ∀ p ∈ s.executed, SnapGood cfg env p.1 p.2
  ckpt_iff : s.checkpointError.isSome ↔
    ∃ n, n < s.executed.length ∧ (env.writeFails n).isSome

theorem inv_init (cfg : RunnerConfig) (env : RunEnv) : Inv cfg env (initState cfg) := by
  refine ⟨?_, ?_, ?_, ?_, ?_, ?_, ?_, ?_, ?_, ?_, ?_, ?_⟩
  · simp [initState]
  · simp [initState]
  · intro i a h
    simp only [initState, List.getElem?_replicate] at h
    split at h
    · exact Or.inl (Option.some_inj.mp h).symm
    · exact absurd h (by simp)
  · simp [initState, filterMap_id_replicate_none]
  · intro i a h
    simp only [initState, List.getElem?_replicate] at h
    split at h
    · exact absurd (Option.some_inj.mp h) (by simp)
    · exact absurd h (by simp)
  · intro i _ h
    exact absurd h (by simp [initState])
  · intro p i h
    simp only [initState, List.getElem?_replicate] at h
    split at h
    · exact absurd (Option.some_inj.mp h) (by simp)
    · exact absurd h (by simp)
  · intro p q i hp hq
    simp only [initState, List.getElem?_replicate] at hp
    split at hp
    · exact absurd (Option.some_inj.mp hp) (by simp)
    · exact absurd hp (by simp)
  · intro p h
    simp only [initState, List.getElem?_replicate] at h
    split at h
    · exact absurd (Option.some_inj.mp h) (by simp)
    · exact absurd h (by simp)
  · intro k hk
    simp only [initState, List.mem_singleton] at hk
    simp [initState, hk]
  · intro p hp
    exact absurd hp (by simp [initState])
  · simp [initState]

theorem getElem?_set_self {α : Type} {l : List α} {i : Nat} {a : α}
    (h : i < l.length) : (l.set i a)[i]? = some a := by
  simp [List.getElem?_set, h]

theorem getElem?_set_ne {α : Type} {l : List α} {i j : Nat} {a : α}
    (h : i ≠ j) : (l.set i a)[j]? = l[j]? := by
  simp [List.getElem?_set, h]

theorem ne_of_getElem?_distinct {α : Type} {l : List α} {p q : Nat} {x y : α}
    (hp : l[p]? = some x) (hq : l[q]? = some y) (hxy : x ≠ y) : p ≠ q := by
  intro he
  subst he
  rw [hp] at hq
  exact hxy (Option.some_inj.mp hq)

/-- One scheduler event preserves the invariant. -/
theorem inv_step (cfg : RunnerConfig) (env : RunEnv) {s : SchedState}
    (hs : Inv cfg env s) (ev : Ev) : Inv cfg env (step cfg env s ev) := by
  cases ev with
  | abort =>
    exact ⟨hs.slots_len, hs.workers_len, hs.slot_content, hs.done_count,
      hs.filled_lt_next, hs.claimed_covered, hs.inCall_ok, hs.inCall_unique,
      fun p _ => Or.inl rfl, hs.queue_le, hs.executed_good, hs.ckpt_iff⟩
  | chain =>
    show Inv cfg env (stepChain cfg env s)
    rcases hq : s.queue with _ | ⟨k, rest⟩
    · simp only [stepChain, hq]
      exact hs
    · simp only [stepChain, hq]
      refine ⟨hs.slots_len, hs.workers_len, hs.slot_content, hs.done_count,
        hs.filled_lt_next, hs.claimed_covered, hs.inCall_ok, hs.inCall_unique,
        hs.finished_next, ?_, ?_, ?_⟩
      · intro k' hk'
        exact hs.queue_le k' (by rw [hq]; exact List.mem_cons_of_mem _ hk')
      · intro p hp
        rcases List.mem_append.mp hp with hmem | hmem
        · exact hs.executed_good p hmem
        · have hpk := List.mem_singleton.mp hmem
          subst hpk
          refine ⟨s.slots, hs.slots_len, hs.slot_content,
            ⟨s.executed.length, rfl⟩, ?_⟩
          have hk : k ≤ s.done :=
            hs.queue_le k (by rw [hq]; exact List.mem_cons_self k rest)
          calc k ≤ s.done := hk
            _ = (s.slots.filterMap id).length := hs.done_count
      · rcases hwf : env.writeFails s.executed.length with _ | msg
        · simp only
          constructor
          · intro hsome
            rcases hs.ckpt_iff.mp hsome with ⟨n, hn, hnw⟩
            exact ⟨n, by simp only [List.length_append, List.length_singleton]; omega, hnw⟩
          · rintro ⟨n, hn, hnw⟩
            apply hs.ckpt_iff.mpr
            refine ⟨n, ?_, hnw⟩
            simp only [List.length_append, List.length_singleton] at hn
            rcases Nat.lt_succ_iff_lt_or_eq.mp hn with hlt | heq
            · exact hlt
            · subst heq
              rw [hwf] at hnw
              exact absurd hnw (by simp)
        · simp only
          constructor
          · intro _
            exact ⟨s.executed.length,
              by simp only [List.length_append, List.length_singleton]; omega,
              by rw [hwf]; rfl⟩
          · intro _
            rfl
  | work wi =>
    show Inv cfg env (stepWork cfg env s wi)
    rcases h : s.workers[wi]? with _ | st
    · simp only [stepWork, h]
      exact hs
    · have hwilen : wi < s.workers.length := (List.getElem?_eq_some.mp h).1
      cases st with
      | finished =>
        simp only [stepWork, h]
        exact hs
      | atLoop =>
        simp only [stepWork, h]
        by_cases hab : s.aborted = true
        · rw [if_pos hab]
          refine ⟨hs.slots_len, by simpa [List.length_set] using hs.workers_len,
            hs.slot_content, hs.done_count, hs.filled_lt_next, ?_, ?_, ?_, ?_,
            hs.queue_le, hs.executed_good, hs.ckpt_iff⟩
          · intro i hip hin
            rcases hs.claimed_covered i hip hin with hf | ⟨p, hp⟩
            · exact Or.inl hf
            · have hpwi : p ≠ wi := ne_of_getElem?_distinct hp h (by simp)
              exact Or.inr ⟨p, by rw [getElem?_set_ne (Ne.symm hpwi)]; exact hp⟩
          · intro p i hp
            have hpwi : p ≠ wi := by
              intro he
              subst he
              rw [getElem?_set_self hwilen] at hp
              exact absurd (Option.some_inj.mp hp) (by simp)
            rw [getElem?_set_ne (Ne.symm hpwi)] at hp
            exact hs.inCall_ok p i hp
          · intro p q i hp hq
            have hpwi : p ≠ wi := by
              intro he
              subst he
              rw [getElem?_set_self hwilen] at hp
              exact absurd (Option.some_inj.mp hp) (by simp)
            have hqwi : q ≠ wi := by
              intro he
              subst he
              rw [getElem?_set_self hwilen] at hq
              exact absurd (Option.some_inj.mp hq) (by simp)
            rw [getElem?_set_ne (Ne.symm hpwi)] at hp
            rw [getElem?_set_ne (Ne.symm hqwi)] at hq
            exact hs.inCall_unique p q i hp hq
          · intro p _
            exact Or.inl hab
        · rw [if_neg hab]
          by_cases hlt : s.next < planned cfg
          · rw [if_pos hlt]
            refine ⟨hs.slots_len, by simpa [List.length_set] using hs.workers_len,
              hs.slot_content, hs.done_count, ?_, ?_, ?_, ?_, ?_,
              hs.queue_le, hs.executed_good, hs.ckpt_iff⟩
            · intro i a hia
              exact Nat.lt_succ_of_lt (hs.filled_lt_next i a hia)
            · intro i hip hin
              rcases Nat.lt_succ_iff_lt_or_eq.mp hin with hin' | heq
              · rcases hs.claimed_covered i hip hin' with hf | ⟨p, hp⟩
                · exact Or.inl hf
                · have hpwi : p ≠ wi := ne_of_getElem?_distinct hp h (by simp)
                  exact Or.inr ⟨p, by rw [getElem?_set_ne (Ne.symm hpwi)]; exact hp⟩
              · subst heq
                exact Or.inr ⟨wi, getElem?_set_self hwilen⟩
            · intro p i hp
              by_cases hpwi : p = wi
              · subst hpwi
                rw [getElem?_set_self hwilen] at hp
                have hi : s.next = i := by
                  have := Option.some_inj.mp hp
                  cases this
                  rfl
                subst hi
                refine ⟨hlt, Nat.lt_succ_self _, ?_⟩
                have hlen : s.next < s.slots.length := by
                  rw [hs.slots_len]
                  exact hlt
                have hsome : s.slots[s.next]? = some s.slots[s.next] :=
                  List.getElem?_eq_getElem hlen
                rcases hs.slot_content s.next _ hsome with hnone | hat
                · rw [hsome, hnone]
                · exfalso
                  have hwl : s.next < (workList cfg).length := hlt
                  have hchk : attemptAt cfg env s.next =
                      some (attemptFor cfg env (workList cfg)[s.next]) := by
                    unfold attemptAt
                    rw [List.getElem?_eq_getElem hwl]
                    rfl
                  have : s.slots[s.next]? =
                      some (some (attemptFor cfg env (workList cfg)[s.next])) := by
                    rw [hsome, hat, hchk]
                  exact absurd (hs.filled_lt_next s.next _ this) (Nat.lt_irrefl _)
              · rw [getElem?_set_ne (Ne.symm hpwi)] at hp
                obtain ⟨h1, h2, h3⟩ := hs.inCall_ok p i hp
                exact ⟨h1, Nat.lt_succ_of_lt h2, h3⟩
            · intro p q i hp hq
              by_cases hpwi : p = wi
              · by_cases hqwi : q = wi
                · rw [hpwi, hqwi]
                · subst hpwi
                  rw [getElem?_set_self hwilen] at hp
                  have hi : s.next = i := by
                    have := Option.some_inj.mp hp
                    cases this
                    rfl
                  subst hi
                  rw [getElem?_set_ne (Ne.symm hqwi)] at hq
                  exact absurd (hs.inCall_ok q s.next hq).2.1 (Nat.lt_irrefl _)
              · by_cases hqwi : q = wi
                · subst hqwi
                  rw [getElem?_set_self hwilen] at hq
                  have hi : s.next = i := by
                    have := Option.some_inj.mp hq
                    cases this
                    rfl
                  subst hi
                  rw [getElem?_set_ne (Ne.symm hpwi)] at hp
                  exact absurd (hs.inCall_ok p s.next hp).2.1 (Nat.lt_irrefl _)
                · rw [getElem?_set_ne (Ne.symm hpwi)] at hp
                  rw [getElem?_set_ne (Ne.symm hqwi)] at hq
                  exact hs.inCall_unique p q i hp hq
            · intro p hp
              have hpwi : p ≠ wi := by
                intro he
                subst he
                rw [getElem?_set_self hwilen] at hp
                exact absurd (Option.some_inj.mp hp) (by simp)
              rw [getElem?_set_ne (Ne.symm hpwi)] at hp
              rcases hs.finished_next p hp with h1 | h1
              · exact Or.inl h1
              · exact Or.inr (Nat.lt_succ_of_lt h1)
          · rw [if_neg hlt]
            have hple : planned cfg ≤ s.next := Nat.le_of_not_lt hlt
            refine ⟨hs.slots_len, by simpa [List.length_set] using hs.workers_len,
              hs.slot_content, hs.done_count, ?_, ?_, ?_, ?_, ?_,
              hs.queue_le, hs.executed_good, hs.ckpt_iff⟩
            · intro i a hia
              exact Nat.lt_succ_of_lt (hs.filled_lt_next i a hia)
            · intro i hip _
              have hin' : i < s.next := Nat.lt_of_lt_of_le hip hple
              rcases hs.claimed_covered i hip hin' with hf | ⟨p, hp⟩
              · exact Or.inl hf
              · have hpwi : p ≠ wi := ne_of_getElem?_distinct hp h (by simp)
                exact Or.inr ⟨p, by rw [getElem?_set_ne (Ne.symm hpwi)]; exact hp⟩
            · intro p i hp
              have hpwi : p ≠ wi := by
                intro he
                subst he
                rw [getElem?_set_self hwilen] at hp
                exact absurd (Option.some_inj.mp hp) (by simp)
              rw [getElem?_set_ne (Ne.symm hpwi)] at hp
              obtain ⟨h1, h2, h3⟩ := hs.inCall_ok p i hp
              exact ⟨h1, Nat.lt_succ_of_lt h2, h3⟩
            · intro p q i hp hq
              have hpwi : p ≠ wi := by
                intro he
                subst he
                rw [getElem?_set_self hwilen] at hp
                exact absurd (Option.some_inj.mp hp) (by simp)
              have hqwi : q ≠ wi := by
                intro he
                subst he
                rw [getElem?_set_self hwilen] at hq
                exact absurd (Option.some_inj.mp hq) (by simp)
              rw [getElem?_set_ne (Ne.symm hpwi)] at hp
              rw [getElem?_set_ne (Ne.symm hqwi)] at hq
              exact hs.inCall_unique p q i hp hq
            · intro p hp
              by_cases hpwi : p = wi
              · exact Or.inr (Nat.lt_succ_of_le hple)
              · rw [getElem?_set_ne (Ne.symm hpwi)] at hp
                rcases hs.finished_next p hp with h1 | h1
                · exact Or.inl h1
                · exact Or.inr (Nat.lt_succ_of_lt h1)
      | inCall i =>
        obtain ⟨hip, hin, hslot⟩ := hs.inCall_ok wi i h
        have hilen : i < s.slots.length := (List.getElem?_eq_some.mp hslot).1
        have hwl : i < (workList cfg).length := hip
        have hAt : attemptAt cfg env i =
            some (attemptFor cfg env (workList cfg)[i]) := by
          unfold attemptAt
          rw [List.getElem?_eq_getElem hwl]
          rfl
        have hslots_len : (s.slots.set i (attemptAt cfg env i)).length = planned cfg := by
          simpa [List.length_set] using hs.slots_len
        have hslot_content : ∀ (j : Nat) (a : Option AttemptResult),
            (s.slots.set i (attemptAt cfg env i))[j]? = some a →
            a = none ∨ a = attemptAt cfg env j := by
          intro j a hja
          by_cases hji : i = j
          · subst hji
            rw [getElem?_set_self hilen] at hja
            exact Or.inr (Option.some_inj.mp hja).symm
          · rw [getElem?_set_ne hji] at hja
            exact hs.slot_content j a hja
        have hdone : s.done + 1 =
            ((s.slots.set i (attemptAt cfg env i)).filterMap id).length := by
          rw [hAt, filterMap_id_length_set s.slots i _ hslot, ← hs.done_count]
        have hfilled : ∀ (j : Nat) (a : AttemptResult),
            (s.slots.set i (attemptAt cfg env i))[j]? = some (some a) → j < s.next := by
          intro j a hja
          by_cases hji : i = j
          · subst hji
            exact hin
          · rw [getElem?_set_ne hji] at hja
            exact hs.filled_lt_next j a hja
        have hclaimed : ∀ j : Nat, j < planned cfg → j < s.next →
            (∃ a : AttemptResult,
              (s.slots.set i (attemptAt cfg env i))[j]? = some (some a)) ∨
            (∃ p : Nat, (s.workers.set wi .atLoop)[p]? = some (WorkerState.inCall j)) := by
          intro j hjp hjn
          by_cases hji : i = j
          · subst hji
            refine Or.inl ⟨attemptFor cfg env (workList cfg)[i], ?_⟩
            rw [getElem?_set_self hilen, hAt]
          · rcases hs.claimed_covered j hjp hjn with ⟨a, ha⟩ | ⟨p, hp⟩
            · exact Or.inl ⟨a, by rw [getElem?_set_ne hji]; exact ha⟩
            · have hpwi : p ≠ wi := by
                intro he
                subst he
                rw [h] at hp
                have := Option.some_inj.mp hp
                cases this
                exact hji rfl
              exact Or.inr ⟨p, by rw [getElem?_set_ne (Ne.symm hpwi)]; exact hp⟩
        have hinCall : ∀ p j : Nat,
            (s.workers.set wi .atLoop)[p]? = some (WorkerState.inCall j) →
            j < planned cfg ∧ j < s.next ∧
              (s.slots.set i (attemptAt cfg env i))[j]? = some none := by
          intro p j hp
          have hpwi : p ≠ wi := by
            intro he
            subst he
            rw [getElem?_set_self hwilen] at hp
            exact absurd (Option.some_inj.mp hp) (by simp)
          rw [getElem?_set_ne (Ne.symm hpwi)] at hp
          obtain ⟨h1, h2, h3⟩ := hs.inCall_ok p j hp
          have hji : i ≠ j := by
            intro he
            subst he
            exact hpwi (hs.inCall_unique p wi i hp h)
          exact ⟨h1, h2, by rw [getElem?_set_ne hji]; exact h3⟩
        have hunique : ∀ p q j : Nat,
            (s.workers.set wi .atLoop)[p]? = some (WorkerState.inCall j) →
            (s.workers.set wi .atLoop)[q]? = some (WorkerState.inCall j) → p = q := by
          intro p q j hp hq
          have hpwi : p ≠ wi := by
            intro he
            subst he
            rw [getElem?_set_self hwilen] at hp
            exact absurd (Option.some_inj.mp hp) (by simp)
          have hqwi : q ≠ wi := by
            intro he
            subst he
            rw [getElem?_set_self hwilen] at hq
            exact absurd (Option.some_inj.mp hq) (by simp)
          rw [getElem?_set_ne (Ne.symm hpwi)] at hp
          rw [getElem?_set_ne (Ne.symm hqwi)] at hq
          exact hs.inCall_unique p q j hp hq
        have hfin : ∀ p : Nat,
            (s.workers.set wi .atLoop)[p]? = some WorkerState.finished →
            s.aborted = true ∨ planned cfg < s.next := by
          intro p hp
          have hpwi : p ≠ wi := by
            intro he
            subst he
            rw [getElem?_set_self hwilen] at hp
            exact absurd (Option.some_inj.mp hp) (by simp)
          rw [getElem?_set_ne (Ne.symm hpwi)] at hp
          exact hs.finished_next p hp
        simp only [stepWork, h]
        split
        · refine ⟨hslots_len, by simpa [List.length_set] using hs.workers_len,
            hslot_content, hdone, hfilled, hclaimed, hinCall, hunique, hfin,
            ?_, hs.executed_good, hs.ckpt_iff⟩
          intro k hk
          rcases List.mem_append.mp hk with hmem | hmem
          · exact Nat.le_succ_of_le (hs.queue_le k hmem)
          · rw [List.mem_singleton.mp hmem]
        · exact ⟨hslots_len, by simpa [List.length_set] using hs.workers_len,
            hslot_content, hdone, hfilled, hclaimed, hinCall, hunique, hfin,
            fun k hk => Nat.le_succ_of_le (hs.queue_le k hk),
            hs.executed_good, hs.ckpt_iff⟩

/-! ### Derived facts about runs -/

theorem inv_foldl (cfg : RunnerConfig) (env : RunEnv) {s : SchedState}
    (hs : Inv cfg env s) (evs : List Ev) :
    Inv cfg env (evs.foldl (step cfg env) s) := by
  induction evs generalizing s with
  | nil => exact hs
  | cons e evs ih => exact ih (inv_step cfg env hs e)

/-- The invariant holds in every reachable state. -/
theorem inv_runSched (cfg : RunnerConfig) (env : RunEnv) (evs : List Ev) :
    Inv cfg env (runSched cfg env evs) :=
  inv_foldl cfg env (inv_init cfg env) evs

/-- Only the signal handler sets the abort flag. -/
theorem step_aborted_eq (cfg : RunnerConfig) (env : RunEnv) (s : SchedState)
    (ev : Ev) (h : ev ≠ Ev.abort) : (step cfg env s ev).aborted = s.aborted := by
  cases ev with
  | abort => exact absurd rfl h
  | chain =>
    show (stepChain cfg env s).aborted = s.aborted
    rcases hq : s.queue with _ | ⟨k, rest⟩ <;> simp [stepChain, hq]
  | work wi =>
    show (stepWork cfg env s wi).aborted = s.aborted
    rcases h2 : s.workers[wi]? with _ | st
    · simp [stepWork, h2]
    · cases st <;> simp only [stepWork, h2] <;> split_ifs <;> rfl

theorem foldl_aborted_false (cfg : RunnerConfig) (env : RunEnv) :
    ∀ (evs : List Ev) (s : SchedState), Ev.abort ∉ evs → s.aborted = false →
    (evs.foldl (step cfg env) s).aborted = false := by
  intro evs
  induction evs with
  | nil => exact fun s _ hs => hs
  | cons e evs ih =>
    intro s h hs
    have he : e ≠ Ev.abort := by
      intro hee
      exact h (by rw [hee]; exact List.mem_cons_self _ _)
    have hstep : (step cfg env s e).aborted = false := by
      rw [step_aborted_eq cfg env s e he, hs]
    exact ih (step cfg env s e) (fun hm => h (List.mem_cons_of_mem _ hm)) hstep

/-- Without a signal, the run is never aborted. -/
theorem runSched_aborted_false (cfg : RunnerConfig) (env : RunEnv) (evs : List Ev)
    (h : Ev.abort ∉ evs) : (runSched cfg env evs).aborted = false :=
  foldl_aborted_false cfg env evs (initState cfg) h rfl

/-- If every checkpoint write succeeds, no checkpoint error is recorded. -/
theorem ckptErr_none (cfg : RunnerConfig) (env : RunEnv) (evs : List Ev)
    (hw : ∀ n, env.writeFails n = none) :
    (runSched cfg env evs).checkpointError = none := by
  rcases hio : (runSched cfg env evs).checkpointError with _ | e
  · rfl
  · exfalso
    have hsome : (runSched cfg env evs).checkpointError.isSome := by
      rw [hio]
      rfl
    rcases (inv_runSched cfg env evs).ckpt_iff.mp hsome with ⟨n, _, hn⟩
    rw [hw n] at hn
    exact absurd hn (by simp)

/-- In a drained state no worker is awaiting a call. -/
theorem drained_no_inCall {s : SchedState} (hD : Drained s) (p i : Nat) :
    s.workers[p]? ≠ some (WorkerState.inCall i) := by
  intro hp
  have hmem : WorkerState.inCall i ∈ s.workers :=
    List.mem_iff_getElem?.mpr ⟨p, hp⟩
  have := hD.1 _ hmem
  exact absurd this (by simp)

/-- In a drained state every claimed in-range slot holds its attempt. -/
theorem drained_filled (cfg : RunnerConfig) (env : RunEnv) {s : SchedState}
    (hInv : Inv cfg env s) (hD : Drained s) (i : Nat)
    (hip : i < planned cfg) (hin : i < s.next) :
    s.slots[i]? = some (attemptAt cfg env i) := by
  rcases hInv.claimed_covered i hip hin with ⟨a, ha⟩ | ⟨p, hp⟩
  · rcases hInv.slot_content i _ ha with hnone | hat
    · exact absurd hnone (by simp)
    · rw [ha, hat]
  · exact absurd hp (drained_no_inCall hD p i)

/-- A drained, unaborted run has claimed past the end of the work list. -/
theorem drained_next (cfg : RunnerConfig) (env : RunEnv) {s : SchedState}
    (hInv : Inv cfg env s) (hD : Drained s) (hab : s.aborted = false) :
    planned cfg < s.next := by
  have hlen : 0 < s.workers.length := by
    rw [hInv.workers_len]
    exact Nat.lt_of_lt_of_le Nat.zero_lt_one (le_max_left 1 _)
  have h0 : s.workers[0]? = some s.workers[0] := List.getElem?_eq_getElem hlen
  have hfin : s.workers[0] = WorkerState.finished :=
    hD.1 _ (List.getElem_mem hlen)
  rcases hInv.finished_next 0 (by rw [h0, hfin]) with h1 | h1
  · rw [hab] at h1
    exact absurd h1 (by simp)
  · exact h1

/-- A drained, unaborted run fills every slot with the item's attempt. -/
theorem slots_full (cfg : RunnerConfig) (env : RunEnv) {s : SchedState}
    (hInv : Inv cfg env s) (hD : Drained s) (hab : s.aborted = false) :
    s.slots = (workList cfg).map (fun w => some (attemptFor cfg env w)) := by
  apply List.ext_getElem?
  intro n
  by_cases hn : n < planned cfg
  · rw [drained_filled cfg env hInv hD n hn
      (Nat.lt_trans hn (drained_next cfg env hInv hD hab))]
    rw [List.getElem?_map]
    have hw : (workList cfg)[n]? = some (workList cfg)[n] :=
      List.getElem?_eq_getElem hn
    unfold attemptAt
    rw [hw]
    rfl
  · have h1 : s.slots[n]? = none :=
      List.getElem?_eq_none (by rw [hInv.slots_len]; omega)
    have h2 : ((workList cfg).map (fun w => some (attemptFor cfg env w)))[n]? = none :=
      List.getElem?_eq_none (by rw [List.length_map]; exact Nat.le_of_not_lt hn)
    rw [h1, h2]

theorem filterMap_map_some {α β : Type} (l : List α) (f : α → β) :
    (l.map (fun x => some (f x))).filterMap id = l.map f := by
  induction l with
  | nil => rfl
  | cons x xs ih => simp only [List.map_cons, List.filterMap_cons, id, ih]

/-! ### The cross product -/

theorem crossProduct_length (ms : List ModelSpec) (ts : List Task) :
    (crossProduct ms ts).length = ms.length * ts.length := by
  induction ms with
  | nil => simp [crossProduct]
  | cons m ms ih =>
    simp only [crossProduct, List.flatMap_cons, List.length_append,
      List.length_map, List.length_cons] at *
    rw [ih]
    ring

theorem workList_length (cfg : RunnerConfig) :
    (workList cfg).length = cfg.models.length * cfg.tasks.length := by
  simp only [workList, buildWork, List.length_map, List.enum_length]
  exact crossProduct_length cfg.models cfg.tasks

theorem planned_eq (cfg : RunnerConfig) :
    planned cfg = cfg.models.length * cfg.tasks.length :=
  workList_length cfg

/-- Both attempt literals carry the work item's own model and task ids. -/
theorem attemptFor_ids (cfg : RunnerConfig) (env : RunEnv) (w : WorkItem) :
    (attemptFor cfg env w).modelId = w.model.id ∧
    (attemptFor cfg env w).taskId = w.task.id := by
  simp only [attemptFor]
  cases constructMessages w.task with
  | error msg => exact ⟨rfl, rfl⟩
  | ok ms =>
    cases (env.item w.index).outcome with
    | success r => exact ⟨rfl, rfl⟩
    | failure m => exact ⟨rfl, rfl⟩

theorem map_ids_eq (cfg : RunnerConfig) (env : RunEnv) :
    ((workList cfg).map (attemptFor cfg env)).map (fun a => (a.modelId, a.taskId)) =
    (crossProduct cfg.models cfg.tasks).map (fun p => (p.1.id, p.2.id)) := by
  unfold workList buildWork
  rw [List.map_map, List.map_map]
  have h2 : (crossProduct cfg.models cfg.tasks).map (fun p => (p.1.id, p.2.id)) =
      ((crossProduct cfg.models cfg.tasks).enum.map Prod.snd).map
        (fun p => (p.1.id, p.2.id)) := by
    rw [List.enum_map_snd]
  rw [h2, List.map_map]
  apply List.map_congr_left
  intro p _
  have := attemptFor_ids cfg env ⟨p.1, p.2.1, p.2.2⟩
  simp only [Function.comp]
  rw [this.1, this.2]

/-! ### Per-step effect lemmas -/

/-- Once the abort flag is up, no event moves the claim cursor: workers
only observe the flag and return. -/
theorem step_next_of_aborted (cfg : RunnerConfig) (env : RunEnv) (s : SchedState)
    (ev : Ev) (hab : s.aborted = true) : (step cfg env s ev).next = s.next := by
  cases ev with
  | abort => rfl
  | chain =>
    show (stepChain cfg env s).next = s.next
    rcases hq : s.queue with _ | ⟨k, rest⟩ <;> simp [stepChain, hq]
  | work wi =>
    show (stepWork cfg env s wi).next = s.next
    rcases h2 : s.workers[wi]? with _ | st
    · simp [stepWork, h2]
    · cases st with
      | atLoop => simp [stepWork, h2, hab]
      | inCall i =>
        simp only [stepWork, h2]
        split <;> rfl
      | finished => simp [stepWork, h2]

/-- A worker that reaches the loop head after the abort flag is up
returns without claiming. -/
theorem stepWork_aborted_finishes (cfg : RunnerConfig) (env : RunEnv)
    (s : SchedState) (wi : Nat) (h : s.workers[wi]? = some WorkerState.atLoop)
    (hab : s.aborted = true) :
    (stepWork cfg env s wi).workers[wi]? = some WorkerState.finished := by
  have hwilen : wi < s.workers.length := (List.getElem?_eq_some.mp h).1
  simp only [stepWork, h]
  rw [if_pos hab]
  exact getElem?_set_self hwilen

/-- A worker whose call has settled records the item's attempt at the
item's own slot — abort flag or not. -/
theorem stepWork_inCall_records (cfg : RunnerConfig) (env : RunEnv)
    (s : SchedState) (wi i : Nat) (h : s.workers[wi]? = some (WorkerState.inCall i))
    (hilen : i < s.slots.length) :
    (stepWork cfg env s wi).slots[i]? = some (attemptAt cfg env i) := by
  simp only [stepWork, h]
  split <;> exact getElem?_set_self hilen

/-- Completing one item bumps `done` by one, leaves the abort flag
alone, and touches no other slot. -/
theorem stepWork_inCall_effects (cfg : RunnerConfig) (env : RunEnv)
    (s : SchedState) (wi i : Nat) (h : s.workers[wi]? = some (WorkerState.inCall i)) :
    (stepWork cfg env s wi).done = s.done + 1 ∧
    (stepWork cfg env s wi).aborted = s.aborted ∧
    ∀ j : Nat, j ≠ i → (stepWork cfg env s wi).slots[j]? = s.slots[j]? := by
  simp only [stepWork, h]
  split <;>
    exact ⟨rfl, rfl, fun j hj => getElem?_set_ne (fun he => hj he.symm)⟩

/-- The checkpoint error register is invisible to the scheduler: no
step's effect on the cursor, the attempt slots, the workers, or the
completion counter depends on it. -/
theorem step_indep_ckptErr (cfg : RunnerConfig) (env : RunEnv) (s : SchedState)
    (e : Option String) (ev : Ev) :
    (step cfg env { s with checkpointError := e } ev).next = (step cfg env s ev).next ∧
    (step cfg env { s with checkpointError := e } ev).done = (step cfg env s ev).done ∧
    (step cfg env { s with checkpointError := e } ev).slots = (step cfg env s ev).slots ∧
    (step cfg env { s with checkpointError := e } ev).workers = (step cfg env s ev).workers := by
  cases ev with
  | abort => exact ⟨rfl, rfl, rfl, rfl⟩
  | chain =>
    rcases hq : s.queue with _ | ⟨k, rest⟩ <;> simp [step, stepChain, hq]
  | work wi =>
    rcases h2 : s.workers[wi]? with _ | st
    · simp [step, stepWork, h2]
    · cases st with
      | atLoop =>
        simp only [step, stepWork, h2]
        split_ifs <;> simp
      | inCall i =>
        simp only [step, stepWork, h2]
        split_ifs <;> simp
      | finished => simp [step, stepWork, h2]

/-! ### Sorted index decomposition of a slot vector -/

/-- Any slot vector whose entries are empty or their own index's attempt
reads back, after dropping the empty slots, as the attempts of a
strictly increasing list of in-range indices. -/
theorem exists_sorted_indices (cfg : RunnerConfig) (env : RunEnv) :
    ∀ (v : List (Option AttemptResult)) (base : Nat),
    (∀ (j : Nat) (a : Option AttemptResult),
      v[j]? = some a → a = none ∨ a = attemptAt cfg env (base + j)) →
    ∃ ixs : List Nat, List.Chain' (· < ·) ixs ∧
      (∀ i ∈ ixs, base ≤ i ∧ i < base + v.length) ∧
      (v.filterMap id).map some = ixs.map (attemptAt cfg env) := by
  intro v
  induction v with
  | nil => exact fun base _ => ⟨[], List.chain'_nil, by simp, by simp⟩
  | cons hd tl ih =>
    intro base hprop
    have hprop' : ∀ (j : Nat) (a : Option AttemptResult),
        tl[j]? = some a → a = none ∨ a = attemptAt cfg env (base + 1 + j) := by
      intro j a hj
      rcases hprop (j + 1) a (by simpa using hj) with h | h
      · exact Or.inl h
      · refine Or.inr ?_
        rw [h]
        congr 1
        omega
    obtain ⟨ixs, hchain, hbound, hmap⟩ := ih (base + 1) hprop'
    cases hd with
    | none =>
      refine ⟨ixs, hchain, ?_, ?_⟩
      · intro i hi
        have := hbound i hi
        refine ⟨by omega, ?_⟩
        simp only [List.length_cons]
        omega
      · simpa using hmap
    | some a =>
      have hat : (some a : Option AttemptResult) = attemptAt cfg env base := by
        rcases hprop 0 (some a) (by simp) with h | h
        · exact absurd h (by simp)
        · simpa using h
      refine ⟨base :: ixs, ?_, ?_, ?_⟩
      · rw [List.chain'_cons']
        refine ⟨?_, hchain⟩
        intro b hb
        have hmem : b ∈ ixs := List.mem_of_mem_head? hb
        have := (hbound b hmem).1
        omega
      · intro i hi
        rcases List.mem_cons.mp hi with hi' | hi'
        · subst hi'
          refine ⟨Nat.le_refl _, ?_⟩
          simp only [List.length_cons]
          omega
        · have := hbound i hi'
          refine ⟨by omega, ?_⟩
          simp only [List.length_cons]
          omega
      · simp only [List.filterMap_cons, id, List.map_cons]
        rw [hmap, ← hat]

/-- Unfolding `finishRun` when no checkpoint write failed. -/
theorem finishRun_eq_ok (cfg : RunnerConfig) (env : RunEnv) (s : SchedState)
    (hce : s.checkpointError = none) :
    finishRun cfg env s =
      .ok { run := buildRunSnapshot cfg env.finalEndedAt s.slots,
            completed := !s.aborted && (s.done == planned cfg),
            aborted := s.aborted } := by
  unfold finishRun
  rw [hce]

/-- Reading `(workList cfg)[n]?` through the cross product. -/
theorem workList_getElem? (cfg : RunnerConfig) (n : Nat) :
    (workList cfg)[n]? =
      ((crossProduct cfg.models cfg.tasks)[n]?).map
        (fun q => (⟨n, q.1, q.2⟩ : WorkItem)) := by
  unfold workList buildWork
  rw [List.getElem?_map, List.getElem?_enum]
  rcases (crossProduct cfg.models cfg.tasks)[n]? with _ | q <;> rfl

/-! ### Concrete fixtures used by witnesses and counterexamples -/

/-- Trivial runtime primitives (no input under study exercises them). -/
def fixPrims : JsPrims :=
  ⟨fun _ _ _ => false, fun _ => none, fun _ => none⟩

/-- Primitives whose `JSON.parse` knows the one object literal the
jsonPath fixtures use (faithful to the real parse of that string). -/
def fixParsePrims : JsPrims :=
  { regexTest := fun _ _ _ => false
    jsonParse := fun s =>
      if s = "\x7b\"a\": 1\x7d" then some (.jobj [("a", .jnum 1)]) else none
    parseNumber := fun _ => none }

def fixModel : ModelSpec := ⟨"m1", none⟩

def fixTask1 : Task :=
  { id := "t1"
    prompt := some "p1"
    expected := some (.jstr "ok") }

def fixTask2 : Task :=
  { id := "t2"
    prompt := some "p2"
    expected := some (.jstr "ok") }

/-- A task with neither `messages` nor `prompt` (construction error). -/
def fixBadTask : Task := { id := "bad" }

def fixResp : ORResponse := ⟨[⟨"ok", some "stop"⟩], none⟩

def fixEnv : RunEnv :=
  { item := fun _ => ⟨.success fixResp, "is", "ie", 5⟩
    snapEndedAt := fun _ => "se"
    writeFails := fun _ => none
    finalEndedAt := "fe"
    prims := fixPrims }

/-- `fixEnv` with every checkpoint write failing. -/
def fixEnvBadDisk : RunEnv :=
  { fixEnv with writeFails := fun _ => some "EIO: disk full" }

/-- `fixEnv` with every remote call rejecting. -/
def fixEnvBadNet : RunEnv :=
  { fixEnv with item := fun _ => ⟨.failure "ECONNRESET", "is", "ie", 5⟩ }

/-- One model, two tasks, checkpoint every completion, two workers. -/
def fixCfg : RunnerConfig :=
  { models := [fixModel]
    tasks := [fixTask1, fixTask2]
    runId := "run-1"
    startedAt := "t0"
    baseUrl := "https://example.invalid/api/v1"
    checkpointEvery := some 1
    concurrency := 2 }

/-- Both workers claim, the initial checkpoint write runs while both
calls are in flight, both items then finish (enqueuing one write each),
both workers observe the exhausted cursor, the chain drains. -/
def fixEvs : List Ev :=
  [.work 0, .work 1, .chain, .work 0, .work 0, .work 1, .work 1, .chain, .chain]

/-! ### The claims -/

/-- C1: for every model/task list and every completion schedule with no
abort and no construction errors, a drained run returns `N*M` attempts,
and the i-th attempt's `(modelId, taskId)` is the i-th pair of the
model-major cross product — independent of completion order, which the
universally quantified schedule `evs` ranges over. -/
theorem C1_attempts_cross_product (cfg : RunnerConfig) (env : RunEnv) (evs : List Ev)
    (_hconstruct : ∀ t ∈ cfg.tasks, (constructMessages t).isOk = true)
    (habort : Ev.abort ∉ evs)
    (hwrites : ∀ n, env.writeFails n = none)
    (hdrained : Drained (runSched cfg env evs)) :
    ∃ out, runBenchmark cfg env evs = .ok out ∧
      out.run.attempts.length = cfg.models.length * cfg.tasks.length ∧
      out.run.attempts.map (fun a => (a.modelId, a.taskId)) =
        (crossProduct cfg.models cfg.tasks).map (fun p => (p.1.id, p.2.id)) ∧
      out.completed = true := by
  have hInv := inv_runSched cfg env evs
  have hab := runSched_aborted_false cfg env evs habort
  have hce := ckptErr_none cfg env evs hwrites
  have hfull := slots_full cfg env hInv hdrained hab
  have hattempts : (runSched cfg env evs).slots.filterMap id =
      (workList cfg).map (attemptFor cfg env) := by
    rw [hfull]
    exact filterMap_map_some _ _
  have hdone : (runSched cfg env evs).done = planned cfg := by
    rw [hInv.done_count, hattempts, List.length_map]
    rfl
  refine ⟨{ run := buildRunSnapshot cfg env.finalEndedAt (runSched cfg env evs).slots,
            completed := !(runSched cfg env evs).aborted &&
              ((runSched cfg env evs).done == planned cfg),
            aborted := (runSched cfg env evs).aborted }, ?_, ?_, ?_, ?_⟩
  · show runBenchmark cfg env evs = _
    unfold runBenchmark
    exact finishRun_eq_ok cfg env _ hce
  · show (buildRunSnapshot cfg env.finalEndedAt (runSched cfg env evs).slots).attempts.length = _
    simp only [buildRunSnapshot]
    rw [hattempts, List.length_map]
    exact workList_length cfg
  · show (buildRunSnapshot cfg env.finalEndedAt (runSched cfg env evs).slots).attempts.map _ = _
    simp only [buildRunSnapshot]
    rw [hattempts]
    exact map_ids_eq cfg env
  · show (!(runSched cfg env evs).aborted && ((runSched cfg env evs).done == planned cfg)) = true
    rw [hab, hdone]
    simp

/-- C1 witness: the two-item fixture run, drained under a schedule whose
first item completes after the initial checkpoint write. -/
theorem C1_attempts_cross_product_witness :
    ∃ out, runBenchmark fixCfg fixEnv fixEvs = .ok out ∧
      out.run.attempts.length = fixCfg.models.length * fixCfg.tasks.length ∧
      out.run.attempts.map (fun a => (a.modelId, a.taskId)) =
        (crossProduct fixCfg.models fixCfg.tasks).map (fun p => (p.1.id, p.2.id)) ∧
      out.completed = true :=
  C1_attempts_cross_product fixCfg fixEnv fixEvs (by decide) (by decide)
    (fun _ => rfl) ⟨by decide, rfl⟩

/-- C2: the client does NOT fail immediately on a 400: the fatal-status
`throw` sits inside the `try`, so the function's own `catch` treats it
like a network error and retries while `attempt <= maxRetries`. With
`maxRetries = 1`, a permanent 400 issues two requests (the claim says
exactly one); the surfaced error does carry the status. -/
theorem C2_http400_is_retried :
    fetchJsonWithRetry 1 (fun _ => .httpError 400 "Bad Request") =
      (2, .error "OpenRouter request failed (400): Bad Request") ∧
    (fetchJsonWithRetry 1 (fun _ => .httpError 400 "Bad Request")).1 ≠ 1 ∧
    (fetchJsonWithRetry 4 (fun _ => .httpError 400 "Bad Request")).1 = 5 := by
  refine ⟨rfl, ?_, rfl⟩
  decide

/-- C3: a failing checkpoint write does not steer any worker (the
scheduler's cursor, slots, workers and counter are independent of the
error register), every claimed in-range item of a drained run is still
recorded, and the run then reports a fatal error instead of a result. -/
theorem C3_checkpoint_failure_fatal (cfg : RunnerConfig) (env : RunEnv) (evs : List Ev)
    (hdrained : Drained (runSched cfg env evs))
    (hfail : ∃ n, n < (runSched cfg env evs).executed.length ∧
      (env.writeFails n).isSome) :
    (∃ e, runBenchmark cfg env evs = .error e) ∧
    (∀ i : Nat, i < planned cfg → i < (runSched cfg env evs).next →
      (runSched cfg env evs).slots[i]? = some (attemptAt cfg env i)) ∧
    (∀ (s : SchedState) (e : Option String) (ev : Ev),
      (step cfg env { s with checkpointError := e } ev).next =
        (step cfg env s ev).next ∧
      (step cfg env { s with checkpointError := e } ev).done =
        (step cfg env s ev).done ∧
      (step cfg env { s with checkpointError := e } ev).slots =
        (step cfg env s ev).slots ∧
      (step cfg env { s with checkpointError := e } ev).workers =
        (step cfg env s ev).workers) := by
  have hInv := inv_runSched cfg env evs
  refine ⟨?_, ?_, fun s e ev => step_indep_ckptErr cfg env s e ev⟩
  · have hsome : (runSched cfg env evs).checkpointError.isSome :=
      hInv.ckpt_iff.mpr hfail
    rcases ho : (runSched cfg env evs).checkpointError with _ | msg
    · rw [ho] at hsome
      exact absurd hsome (by simp)
    · refine ⟨"Checkpoint write failed: " ++ msg, ?_⟩
      unfold runBenchmark finishRun
      rw [ho]
  · intro i hip hin
    exact drained_filled cfg env hInv hdrained i hip hin

/-- C3 witness: the fixture run on a disk where every write fails: all
work still records, the run errors out. -/
theorem C3_checkpoint_failure_fatal_witness :
    (∃ e, runBenchmark fixCfg fixEnvBadDisk fixEvs = .error e) ∧
    (∀ i : Nat, i < planned fixCfg → i < (runSched fixCfg fixEnvBadDisk fixEvs).next →
      (runSched fixCfg fixEnvBadDisk fixEvs).slots[i]? =
        some (attemptAt fixCfg fixEnvBadDisk i)) ∧
    (∀ (s : SchedState) (e : Option String) (ev : Ev),
      (step fixCfg fixEnvBadDisk { s with checkpointError := e } ev).next =
        (step fixCfg fixEnvBadDisk s ev).next ∧
      (step fixCfg fixEnvBadDisk { s with checkpointError := e } ev).done =
        (step fixCfg fixEnvBadDisk s ev).done ∧
      (step fixCfg fixEnvBadDisk { s with checkpointError := e } ev).slots =
        (step fixCfg fixEnvBadDisk s ev).slots ∧
      (step fixCfg fixEnvBadDisk { s with checkpointError := e } ev).workers =
        (step fixCfg fixEnvBadDisk s ev).workers) :=
  C3_checkpoint_failure_fatal fixCfg fixEnvBadDisk fixEvs ⟨by decide, rfl⟩
    ⟨0, by decide, rfl⟩

/-- C4 counterexample to the claim as stated: a snapshot enqueued after
exactly one completion can serialize two attempts, because
`buildRunSnapshot` runs inside the chained continuation when the write
executes, not at enqueue time. In the fixture run the write enqueued at
`done = 1` executes after the second item finished. -/
theorem C4_counterexample :
    ¬ ∀ p ∈ (runSched fixCfg fixEnv fixEvs).executed,
        p.2.attempts.length = p.1 := by
  decide

/-- C4 (amended): every executed checkpoint write serializes a full
`RunResult` under the run's single `runId` whose attempts are the
finished-so-far results at the moment the serialized write executes —
at least `k` of them when the write was enqueued after exactly `k`
completions — in strictly increasing work-item index order, with no
duplicate indices, no null padding, and each drawn from the planned
cross product. -/
theorem C4_checkpoint_snapshots (cfg : RunnerConfig) (env : RunEnv) (evs : List Ev) :
    ∀ p ∈ (runSched cfg env evs).executed,
      p.2.runId = cfg.runId ∧
      ∃ ixs : List Nat, List.Chain' (· < ·) ixs ∧
        (∀ i ∈ ixs, i < planned cfg) ∧
        p.2.attempts.map some = ixs.map (attemptAt cfg env) ∧
        (∀ i ∈ ixs, ∃ q, (crossProduct cfg.models cfg.tasks)[i]? = some q ∧
          attemptAt cfg env i = some (attemptFor cfg env ⟨i, q.1, q.2⟩)) ∧
        p.1 ≤ ixs.length := by
  intro p hp
  obtain ⟨v, hvlen, hvprop, ⟨m, hsnap⟩, hk⟩ :=
    (inv_runSched cfg env evs).executed_good p hp
  constructor
  · rw [hsnap]
    rfl
  · obtain ⟨ixs, hchain, hbound, hmap⟩ := exists_sorted_indices cfg env v 0
      (by intro j a hj; simpa using hvprop j a hj)
    have hbound' : ∀ i ∈ ixs, i < planned cfg := by
      intro i hi
      have := (hbound i hi).2
      rw [hvlen] at this
      omega
    refine ⟨ixs, hchain, hbound', ?_, ?_, ?_⟩
    · rw [hsnap]
      exact hmap
    · intro i hi
      have hipl : i < planned cfg := hbound' i hi
      have hcl : i < (crossProduct cfg.models cfg.tasks).length := by
        rw [crossProduct_length]
        rw [planned_eq] at hipl
        exact hipl
      refine ⟨(crossProduct cfg.models cfg.tasks)[i],
        List.getElem?_eq_getElem hcl, ?_⟩
      unfold attemptAt
      rw [workList_getElem?, List.getElem?_eq_getElem hcl]
      rfl
    · have hlen := congrArg List.length hmap
      simp only [List.length_map] at hlen
      omega

/-- C4 witness: the second executed write of the fixture run (enqueued
after one completion, serialized after two). -/
theorem C4_checkpoint_snapshots_witness :
    ∃ p ∈ (runSched fixCfg fixEnv fixEvs).executed,
      p.2.runId = fixCfg.runId ∧
      ∃ ixs : List Nat, List.Chain' (· < ·) ixs ∧
        (∀ i ∈ ixs, i < planned fixCfg) ∧
        p.2.attempts.map some = ixs.map (attemptAt fixCfg fixEnv) ∧
        (∀ i ∈ ixs, ∃ q, (crossProduct fixCfg.models fixCfg.tasks)[i]? = some q ∧
          attemptAt fixCfg fixEnv i =
            some (attemptFor fixCfg fixEnv ⟨i, q.1, q.2⟩)) ∧
        p.1 ≤ ixs.length :=
  ⟨(runSched fixCfg fixEnv fixEvs).executed.get ⟨1, by decide⟩,
    List.get_mem _ _ _,
    C4_checkpoint_snapshots fixCfg fixEnv fixEvs _ (List.get_mem _ _ _)⟩

/-- C5: the finalizer overwrites `latest.json` and deletes the
intermediate `<runId>.partial.json` checkpoint exactly when the run
completed; an incomplete run leaves `latest.json` untouched and keeps
the checkpoint path on disk (now holding the partial terminal record). -/
theorem C5_finalization_artifacts (runId : String) (run : RunResult) (fs : OutDir) :
    ((persistFinal runId run true fs).1 "latest.json" = some run ∧
     (persistFinal runId run true fs).1 (runId ++ ".partial.json") = none ∧
     (persistFinal runId run true fs).1 (runId ++ ".json") = some run ∧
     (persistFinal runId run true fs).2 = runId ++ ".json") ∧
    ((persistFinal runId run false fs).1 "latest.json" = fs "latest.json" ∧
     (persistFinal runId run false fs).1 (runId ++ ".partial.json") = some run ∧
     (persistFinal runId run false fs).2 = runId ++ ".partial.json") := by
  have hlatest_partial : "latest.json" ≠ runId ++ ".partial.json" := by
    intro h
    have hlen := congrArg String.length h
    rw [String.length_append] at hlen
    have h1 : ("latest.json").length = 11 := rfl
    have h2 : (".partial.json").length = 13 := rfl
    rw [h1, h2] at hlen
    omega
  have hjson_partial : runId ++ ".json" ≠ runId ++ ".partial.json" := by
    intro h
    have hlen := congrArg String.length h
    rw [String.length_append, String.length_append] at hlen
    have h1 : (".json").length = 5 := rfl
    have h2 : (".partial.json").length = 13 := rfl
    rw [h1, h2] at hlen
    omega
  constructor
  · refine ⟨?_, ?_, ?_, rfl⟩
    · show (if "latest.json" = runId ++ ".partial.json" then none
        else if "latest.json" = "latest.json" then some run
        else if "latest.json" = runId ++ ".json" then some run
        else fs "latest.json") = some run
      rw [if_neg hlatest_partial, if_pos rfl]
    · show (if runId ++ ".partial.json" = runId ++ ".partial.json" then none
        else _) = none
      rw [if_pos rfl]
    · show (if runId ++ ".json" = runId ++ ".partial.json" then none
        else if runId ++ ".json" = "latest.json" then some run
        else if runId ++ ".json" = runId ++ ".json" then some run
        else fs (runId ++ ".json")) = some run
      rw [if_neg hjson_partial]
      by_cases hcollide : runId ++ ".json" = "latest.json"
      · rw [if_pos hcollide]
      · rw [if_neg hcollide, if_pos rfl]
  · refine ⟨?_, ?_, rfl⟩
    · show (if "latest.json" = runId ++ ".partial.json" then some run
        else fs "latest.json") = fs "latest.json"
      rw [if_neg hlatest_partial]
    · show (if runId ++ ".partial.json" = runId ++ ".partial.json" then some run
        else fs (runId ++ ".partial.json")) = some run
      rw [if_pos rfl]

/-- C6: once the shared abort flag is set, no event moves the claim
cursor and a worker reaching the loop head returns instead of claiming;
a worker whose call is in flight still records its attempt at its own
slot; and a drained aborted run (with no checkpoint failure) returns
`completed = false, aborted = true`. -/
theorem C6_abort_semantics (cfg : RunnerConfig) (env : RunEnv) :
    (∀ (s : SchedState) (ev : Ev), s.aborted = true →
      (step cfg env s ev).next = s.next) ∧
    (∀ (s : SchedState) (wi : Nat), s.workers[wi]? = some WorkerState.atLoop →
      s.aborted = true →
      (stepWork cfg env s wi).workers[wi]? = some WorkerState.finished) ∧
    (∀ (s : SchedState) (wi i : Nat),
      s.workers[wi]? = some (WorkerState.inCall i) → i < s.slots.length →
      (stepWork cfg env s wi).slots[i]? = some (attemptAt cfg env i)) ∧
    (∀ s : SchedState, s.checkpointError = none → s.aborted = true →
      finishRun cfg env s =
        .ok { run := buildRunSnapshot cfg env.finalEndedAt s.slots,
              completed := false, aborted := true }) := by
  refine ⟨fun s ev hab => step_next_of_aborted cfg env s ev hab,
    fun s wi h hab => stepWork_aborted_finishes cfg env s wi h hab,
    fun s wi i h hl => stepWork_inCall_records cfg env s wi i h hl,
    fun s hce hab => ?_⟩
  rw [finishRun_eq_ok cfg env s hce, hab]
  rfl

/-- C6 witness: an aborted copy of the fixture's initial state, plus a
state with a call in flight. -/
theorem C6_abort_semantics_witness :
    (step fixCfg fixEnv { initState fixCfg with aborted := true } (Ev.work 0)).next =
      ({ initState fixCfg with aborted := true } : SchedState).next ∧
    (stepWork fixCfg fixEnv { initState fixCfg with aborted := true } 0).workers[0]? =
      some WorkerState.finished ∧
    (stepWork fixCfg fixEnv
        { initState fixCfg with
          aborted := true
          workers := [WorkerState.inCall 0, WorkerState.atLoop] } 0).slots[0]? =
      some (attemptAt fixCfg fixEnv 0) ∧
    finishRun fixCfg fixEnv { initState fixCfg with aborted := true } =
      .ok { run := buildRunSnapshot fixCfg fixEnv.finalEndedAt
              ({ initState fixCfg with aborted := true } : SchedState).slots,
            completed := false, aborted := true } := by
  obtain ⟨h1, h2, h3, h4⟩ := C6_abort_semantics fixCfg fixEnv
  exact ⟨h1 { initState fixCfg with aborted := true } (Ev.work 0) rfl,
    h2 { initState fixCfg with aborted := true } 0 (by decide) rfl,
    h3 { initState fixCfg with
          aborted := true
          workers := [WorkerState.inCall 0, WorkerState.atLoop] } 0 0 (by decide)
      (by decide),
    h4 { initState fixCfg with aborted := true } rfl rfl⟩

/-- Both attempt literals obey the ok/error/score discipline. -/
theorem attemptFor_invariant (cfg : RunnerConfig) (env : RunEnv) (w : WorkItem) :
    ((attemptFor cfg env w).ok = false →
      (attemptFor cfg env w).error.isSome ∧ (attemptFor cfg env w).score = none) ∧
    ((attemptFor cfg env w).ok = true → (attemptFor cfg env w).score.isSome) := by
  simp only [attemptFor]
  cases constructMessages w.task with
  | error msg => exact ⟨fun _ => ⟨rfl, rfl⟩, fun h => Bool.noConfusion h⟩
  | ok ms =>
    cases (env.item w.index).outcome with
    | success r => exact ⟨fun h => Bool.noConfusion h, fun _ => rfl⟩
    | failure m => exact ⟨fun _ => ⟨rfl, rfl⟩, fun h => Bool.noConfusion h⟩

/-- C7: every recorded attempt satisfies `ok = false → error set ∧ score
absent` and `ok = true → score set`; a construction error or a rejected
call yields an `ok = false` attempt with the thrown message; and a
completing item — whatever its outcome — bumps `done` by one, never sets
the abort flag, and touches no other slot. -/
theorem C7_attempt_result_discipline (cfg : RunnerConfig) (env : RunEnv) :
    (∀ (evs : List Ev) (i : Nat) (a : AttemptResult),
      (runSched cfg env evs).slots[i]? = some (some a) →
      ((a.ok = false → a.error.isSome ∧ a.score = none) ∧
       (a.ok = true → a.score.isSome))) ∧
    (∀ w : WorkItem, (constructMessages w.task).isOk = false →
      (attemptFor cfg env w).ok = false ∧ (attemptFor cfg env w).error.isSome ∧
      (attemptFor cfg env w).score = none) ∧
    (∀ (w : WorkItem) (ms : List ChatMessage) (m : String),
      constructMessages w.task = .ok ms →
      (env.item w.index).outcome = .failure m →
      (attemptFor cfg env w).ok = false ∧ (attemptFor cfg env w).error = some m ∧
      (attemptFor cfg env w).score = none) ∧
    (∀ (s : SchedState) (wi i : Nat),
      s.workers[wi]? = some (WorkerState.inCall i) →
      (stepWork cfg env s wi).done = s.done + 1 ∧
      (stepWork cfg env s wi).aborted = s.aborted ∧
      (∀ j : Nat, j ≠ i → (stepWork cfg env s wi).slots[j]? = s.slots[j]?)) := by
  refine ⟨?_, ?_, ?_, fun s wi i h => stepWork_inCall_effects cfg env s wi i h⟩
  · intro evs i a hslot
    rcases (inv_runSched cfg env evs).slot_content i _ hslot with hnone | hat
    · exact absurd hnone (by simp)
    · rcases hw : (workList cfg)[i]? with _ | w
      · rw [show attemptAt cfg env i = none by unfold attemptAt; rw [hw]; rfl] at hat
        exact absurd hat (by simp)
      · have ha : a = attemptFor cfg env w := by
          rw [show attemptAt cfg env i = some (attemptFor cfg env w) by
            unfold attemptAt; rw [hw]; rfl] at hat
          exact Option.some_inj.mp hat
        rw [ha]
        exact attemptFor_invariant cfg env w
  · intro w hbad
    cases hcm : constructMessages w.task with
    | ok ms =>
      rw [hcm] at hbad
      exact absurd hbad (by simp [Except.isOk, Except.toBool])
    | error msg =>
      simp [attemptFor, hcm]
  · intro w ms m hcm hout
    simp [attemptFor, hcm, hout]

/-- C7 witness: the fixture run's slot 0, a task with neither prompt nor
messages, a rejecting call, and a completion step. -/
theorem C7_attempt_result_discipline_witness :
    ((attemptFor fixCfg fixEnv ⟨0, fixModel, fixTask1⟩).ok = false →
      (attemptFor fixCfg fixEnv ⟨0, fixModel, fixTask1⟩).error.isSome ∧
      (attemptFor fixCfg fixEnv ⟨0, fixModel, fixTask1⟩).score = none) ∧
    ((attemptFor fixCfg fixEnv ⟨0, fixModel, fixTask1⟩).ok = true →
      (attemptFor fixCfg fixEnv ⟨0, fixModel, fixTask1⟩).score.isSome) ∧
    ((attemptFor fixCfg fixEnv ⟨0, fixModel, fixBadTask⟩).ok = false ∧
      (attemptFor fixCfg fixEnv ⟨0, fixModel, fixBadTask⟩).error.isSome ∧
      (attemptFor fixCfg fixEnv ⟨0, fixModel, fixBadTask⟩).score = none) ∧
    ((attemptFor fixCfg fixEnvBadNet ⟨0, fixModel, fixTask1⟩).ok = false ∧
      (attemptFor fixCfg fixEnvBadNet ⟨0, fixModel, fixTask1⟩).error =
        some "ECONNRESET" ∧
      (attemptFor fixCfg fixEnvBadNet ⟨0, fixModel, fixTask1⟩).score = none) ∧
    ((stepWork fixCfg fixEnv
        { initState fixCfg with
          workers := [WorkerState.inCall 0, WorkerState.atLoop] } 0).done =
      ({ initState fixCfg with
          workers := [WorkerState.inCall 0, WorkerState.atLoop] } : SchedState).done + 1) := by
  obtain ⟨h1, h2, h3, h4⟩ := C7_attempt_result_discipline fixCfg fixEnv
  obtain ⟨g1, g2, g3, g4⟩ := C7_attempt_result_discipline fixCfg fixEnvBadNet
  have hslot : (runSched fixCfg fixEnv fixEvs).slots[0]? =
      some (some (attemptFor fixCfg fixEnv ⟨0, fixModel, fixTask1⟩)) := rfl
  have hmain := h1 fixEvs 0 (attemptFor fixCfg fixEnv ⟨0, fixModel, fixTask1⟩) hslot
  exact ⟨hmain.1, hmain.2,
    h2 ⟨0, fixModel, fixBadTask⟩ rfl,
    g3 ⟨0, fixModel, fixTask1⟩ [⟨Role.user, "p1"⟩] "ECONNRESET" rfl rfl,
    (h4 { initState fixCfg with
        workers := [WorkerState.inCall 0, WorkerState.atLoop] } 0 0 (by decide)).1⟩

/-- The claim's phrasing of "trims both sides when `trim` is set". -/
def specTrim (s : String) (t : Option Bool) : String :=
  if t.getD false then jsTrim s else s

/-- The claim's phrasing of "case-folds when `caseInsensitive` is set". -/
def specFold (s : String) (ci : Option Bool) : String :=
  if ci.getD false then jsLower s else s

/-- C8 counterexample to the claim as stated: an `exact` scorer spec
with `trim` unset does not trim, so scoring `"  ok  "` against `"ok"`
is incorrect even though the trimmed sides agree. -/
theorem C8_counterexample :
    (scoreOutput fixPrims "  ok  " (some (.jstr "ok"))
      (some (.exact none none))).correct = false ∧
    jsTrim "  ok  " = jsTrim (jsToStringOrEmpty (some (.jstr "ok"))) := by
  decide

/-- C8 (amended): with an absent scorer spec the scorer compares the
trimmed sides without case folding; with an `exact` spec it trims only
when `trim` is set and case-folds only when `caseInsensitive` is set;
in particular `score("  ok  ", "ok")` with no spec is correct. -/
theorem C8_exact_scoring (prims : JsPrims) (text : String) (expected : JsValue)
    (t ci : Option Bool) :
    ((scoreOutput prims text expected none).correct =
      (jsTrim text == jsTrim (jsToStringOrEmpty expected))) ∧
    ((scoreOutput prims text expected (some (.exact t ci))).correct =
      (specFold (specTrim text t) ci ==
        specFold (specTrim (jsToStringOrEmpty expected) t) ci)) ∧
    (scoreOutput fixPrims "  ok  " (some (.jstr "ok")) none).correct = true :=
  ⟨rfl, rfl, by decide⟩

/-- C9 counterexample to the claim as stated: the jsonPath scorer
compares the extracted value against the scorer spec's own `expected`
field, not the `expected` argument of `scoreOutput`: extraction yields
1, the argument says 2, yet the verdict is correct. -/
theorem C9_counterexample :
    (scoreOutput fixParsePrims "\x7b\"a\": 1\x7d" (some (.jnum 2))
      (some (.jsonPath "$.a" (some (.jnum 1)) none))).correct = true ∧
    getJsonPath (some (.jobj [("a", .jnum 1)])) "$.a" = .ok (some (.jnum 1)) ∧
    jsonStringifyV (some (.jnum 1)) ≠ jsonStringifyV (some (.jnum 2)) := by
  refine ⟨rfl, rfl, ?_⟩
  decide

/-- C9 (amended): jsonPath scoring is incorrect with details
"invalid JSON" when the response text does not parse; otherwise it walks
the restricted path grammar (`$.` root, dot-separated identifier
segments, optional single bracketed index) and is correct iff the
extracted value matches the scorer spec's own `expected` — by
`Object.is` under `strict`, else by JSON-serialization equality; a path
the grammar rejects scores incorrect. -/
theorem C9_jsonPath_scoring (prims : JsPrims) (text : String)
    (expectedArg : JsValue) (path : String) (sexp : JsValue)
    (strict : Option Bool) :
    (prims.jsonParse text = none →
      scoreOutput prims text expectedArg (some (.jsonPath path sexp strict)) =
        ⟨false, "invalid JSON"⟩) ∧
    (∀ j : Json, prims.jsonParse text = some j →
      (∀ e : String, getJsonPath (some j) path = .error e →
        (scoreOutput prims text expectedArg
          (some (.jsonPath path sexp strict))).correct = false) ∧
      (∀ got : JsValue, getJsonPath (some j) path = .ok got →
        (scoreOutput prims text expectedArg
          (some (.jsonPath path sexp strict))).correct =
          (if strict.getD false then jsObjectIs got sexp
           else jsonStringifyV got == jsonStringifyV sexp))) := by
  constructor
  · intro hp
    simp [scoreOutput, hp]
  · intro j hp
    constructor
    · intro e he
      simp [scoreOutput, hp, he]
    · intro got hg
      simp [scoreOutput, hp, hg]

/-- C9 witness: unparsable text scores "invalid JSON"; the fixture
object under `$.a` scores by serialization comparison. -/
theorem C9_jsonPath_scoring_witness :
    scoreOutput fixParsePrims "not json" (some (.jstr "x"))
      (some (.jsonPath "$.a" (some (.jnum 1)) none)) = ⟨false, "invalid JSON"⟩ ∧
    (scoreOutput fixParsePrims "\x7b\"a\": 1\x7d" (some (.jnum 2))
      (some (.jsonPath "$.a" (some (.jnum 1)) none))).correct =
      (jsonStringifyV (some (.jnum 1)) == jsonStringifyV (some (.jnum 1))) :=
  ⟨(C9_jsonPath_scoring fixParsePrims "not json" (some (.jstr "x")) "$.a"
      (some (.jnum 1)) none).1 rfl,
   ((C9_jsonPath_scoring fixParsePrims "\x7b\"a\": 1\x7d" (some (.jnum 2)) "$.a"
      (some (.jnum 1)) none).2 (.jobj [("a", .jnum 1)]) rfl).2
      (some (.jnum 1)) rfl⟩

/-- Dropping the stored (possibly truncated) response text. -/
def eraseResponseText (a : AttemptResult) : AttemptResult :=
  { a with responseText := none }

/-- The run options with only the truncation knobs replaced. -/
def withTruncationOptions (cfg : RunnerConfig) (mc : Option Nat)
    (sf : Option Bool) : RunnerConfig :=
  { cfg with maxChars := mc, storeFullText := sf }

/-- The scorer runs on the full, untruncated content, so the recorded
attempt depends on the truncation knobs only through `responseText`. -/
theorem attemptFor_truncation_invariant (cfg : RunnerConfig) (env : RunEnv)
    (mc1 mc2 : Option Nat) (sf1 sf2 : Option Bool) (w : WorkItem) :
    eraseResponseText (attemptFor (withTruncationOptions cfg mc1 sf1) env w) =
    eraseResponseText (attemptFor (withTruncationOptions cfg mc2 sf2) env w) := by
  simp only [attemptFor, withTruncationOptions, eraseResponseText]
  cases constructMessages w.task with
  | error msg => rfl
  | ok ms =>
    cases (env.item w.index).outcome with
    | success r => rfl
    | failure m => rfl

/-- C10: two runs differing only in `maxChars` / `storeFullText` record,
for every work item, attempts equal up to `responseText` — in
particular identical `score` — and two drained unaborted runs return
attempt lists equal up to `responseText` with identical score columns. -/
theorem C10_truncation_independence (cfg : RunnerConfig) (env : RunEnv)
    (mc1 mc2 : Option Nat) (sf1 sf2 : Option Bool) :
    (∀ w : WorkItem,
      eraseResponseText (attemptFor (withTruncationOptions cfg mc1 sf1) env w) =
      eraseResponseText (attemptFor (withTruncationOptions cfg mc2 sf2) env w)) ∧
    (∀ evs1 evs2 : List Ev, Ev.abort ∉ evs1 → Ev.abort ∉ evs2 →
      (∀ n, env.writeFails n = none) →
      Drained (runSched (withTruncationOptions cfg mc1 sf1) env evs1) →
      Drained (runSched (withTruncationOptions cfg mc2 sf2) env evs2) →
      ∃ o1 o2,
        runBenchmark (withTruncationOptions cfg mc1 sf1) env evs1 = .ok o1 ∧
        runBenchmark (withTruncationOptions cfg mc2 sf2) env evs2 = .ok o2 ∧
        o1.run.attempts.map eraseResponseText =
          o2.run.attempts.map eraseResponseText ∧
        o1.run.attempts.map (fun a => a.score) =
          o2.run.attempts.map (fun a => a.score)) := by
  refine ⟨fun w => attemptFor_truncation_invariant cfg env mc1 mc2 sf1 sf2 w, ?_⟩
  intro evs1 evs2 hab1 hab2 hwrites hd1 hd2
  have hInv1 := inv_runSched (withTruncationOptions cfg mc1 sf1) env evs1
  have hInv2 := inv_runSched (withTruncationOptions cfg mc2 sf2) env evs2
  have hA1 := runSched_aborted_false (withTruncationOptions cfg mc1 sf1) env evs1 hab1
  have hA2 := runSched_aborted_false (withTruncationOptions cfg mc2 sf2) env evs2 hab2
  have hce1 := ckptErr_none (withTruncationOptions cfg mc1 sf1) env evs1 hwrites
  have hce2 := ckptErr_none (withTruncationOptions cfg mc2 sf2) env evs2 hwrites
  have hfull1 := slots_full (withTruncationOptions cfg mc1 sf1) env hInv1 hd1 hA1
  have hfull2 := slots_full (withTruncationOptions cfg mc2 sf2) env hInv2 hd2 hA2
  have hatt1 : (runSched (withTruncationOptions cfg mc1 sf1) env evs1).slots.filterMap id =
      (workList cfg).map (attemptFor (withTruncationOptions cfg mc1 sf1) env) := by
    rw [hfull1]
    exact filterMap_map_some _ _
  have hatt2 : (runSched (withTruncationOptions cfg mc2 sf2) env evs2).slots.filterMap id =
      (workList cfg).map (attemptFor (withTruncationOptions cfg mc2 sf2) env) := by
    rw [hfull2]
    exact filterMap_map_some _ _
  have herase : ((workList cfg).map (attemptFor (withTruncationOptions cfg mc1 sf1) env)).map
        eraseResponseText =
      ((workList cfg).map (attemptFor (withTruncationOptions cfg mc2 sf2) env)).map
        eraseResponseText := by
    rw [List.map_map, List.map_map]
    exact List.map_congr_left fun w _ =>
      attemptFor_truncation_invariant cfg env mc1 mc2 sf1 sf2 w
  refine ⟨{ run := buildRunSnapshot (withTruncationOptions cfg mc1 sf1) env.finalEndedAt
              (runSched (withTruncationOptions cfg mc1 sf1) env evs1).slots,
            completed := !(runSched (withTruncationOptions cfg mc1 sf1) env evs1).aborted &&
              ((runSched (withTruncationOptions cfg mc1 sf1) env evs1).done ==
                planned (withTruncationOptions cfg mc1 sf1)),
            aborted := (runSched (withTruncationOptions cfg mc1 sf1) env evs1).aborted },
          { run := buildRunSnapshot (withTruncationOptions cfg mc2 sf2) env.finalEndedAt
              (runSched (withTruncationOptions cfg mc2 sf2) env evs2).slots,
            completed := !(runSched (withTruncationOptions cfg mc2 sf2) env evs2).aborted &&
              ((runSched (withTruncationOptions cfg mc2 sf2) env evs2).done ==
                planned (withTruncationOptions cfg mc2 sf2)),
            aborted := (runSched (withTruncationOptions cfg mc2 sf2) env evs2).aborted },
          ?_, ?_, ?_, ?_⟩
  · show runBenchmark _ env evs1 = _
    unfold runBenchmark
    exact finishRun_eq_ok _ env _ hce1
  · show runBenchmark _ env evs2 = _
    unfold runBenchmark
    exact finishRun_eq_ok _ env _ hce2
  · show ((buildRunSnapshot _ env.finalEndedAt _).attempts).map eraseResponseText = _
    simp only [buildRunSnapshot]
    rw [hatt1, hatt2]
    exact herase
  · show ((buildRunSnapshot _ env.finalEndedAt _).attempts).map (fun a => a.score) = _
    simp only [buildRunSnapshot]
    rw [hatt1, hatt2]
    have h1 := congrArg (List.map (fun a => a.score)) herase
    rw [List.map_map, List.map_map, List.map_map, List.map_map] at h1
    rw [List.map_map, List.map_map]
    exact h1

/-- C10 witness: the fixture run with a one-character budget versus
full-text storage: identical scores, attempt lists equal up to
`responseText`. -/
theorem C10_truncation_independence_witness :
    ∃ o1 o2,
      runBenchmark (withTruncationOptions fixCfg (some 1) none) fixEnv fixEvs =
        .ok o1 ∧
      runBenchmark (withTruncationOptions fixCfg none (some true)) fixEnv fixEvs =
        .ok o2 ∧
      o1.run.attempts.map eraseResponseText =
        o2.run.attempts.map eraseResponseText ∧
      o1.run.attempts.map (fun a => a.score) =
        o2.run.attempts.map (fun a => a.score) :=
  (C10_truncation_independence fixCfg fixEnv (some 1) none none (some true)).2
    fixEvs fixEvs (by decide) (by decide) (fun _ => rfl)
    ⟨by decide, rfl⟩ ⟨by decide, rfl⟩

end Bench
